import Mathlib

namespace BraketEmu

/-!
# Verification of the Braket emulation/validation layer

Shallow embedding of the device-capability-driven pass construction and
validation code of this repository:

* `src/braket/aws/aws_emulation.py` (connectivity / gate-connectivity
  builders, AHS constants builder),
* `src/braket/emulators/emulator_passes/criteria/gate_connectivity_criterion.py`,
* `src/braket/emulation/emulation_passes/ahs_passes/ahs_noisy_pass.py`,
* `src/braket/emulation/emulation_passes/ahs_passes/device_validators/`.

Python numbers handled exactly (`Decimal`, exact rational geometry) are
embedded as `ℚ`; a networkx `DiGraph` is embedded as its list of directed
edges, together with an attribute map when per-edge supported-gate
annotations are involved.
-/

deriving instance DecidableEq for Except

/-- A directed edge between qubit ids. -/
abbrev Edge := Nat × Nat

/-- networkx `add_edge` on a bare edge list: appends the edge if absent
(existing edges keep their position; no duplicates are created). -/
def addEdge (es : List Edge) (e : Edge) : List Edge :=
  if e ∈ es then es else es ++ [e]

/-- The back-edge loop
`for edge in connectivity_graph.edges: connectivity_graph.add_edge(edge[1], edge[0])`
of `aws_emulation.py` (lines 116-118 in the IQM register of
`_connectivity_validator`; repeated verbatim at lines 385-387 and 398-400).
networkx iterates the live adjacency structure, but an edge inserted during
the loop is always the reverse of an existing edge, so re-processing it only
re-inserts an edge that is already present; the loop is therefore equivalent
to folding the insertions over the initial edge list. -/
def addBackEdges (es : List Edge) : List Edge :=
  es.foldl (fun acc e => addEdge acc (e.2, e.1)) es

/-- Default dispatch case of `_connectivity_validator`
(`aws_emulation.py` lines 100-106): the validator wraps the input adjacency
unchanged. -/
def connectivityValidatorDefault (es : List Edge) : List Edge := es

/-- IQM dispatch case of `_connectivity_validator`
(`aws_emulation.py` lines 109-119): copy the graph and insert the reverse of
every edge. -/
def connectivityValidatorIqm (es : List Edge) : List Edge := addBackEdges es

/-!
## Driving-field amplitude boundary check

Embedding of `DeviceDrivingFieldValidator.amplitude_start_and_end_values`
(`device_validators/device_driving_field.py`, lines 24-48).  Time-series
values are parsed `Decimal`s, embedded as `ℚ`.
-/

/-- The error message raised at `device_driving_field.py` lines 44-47, with
the offending first and last values interpolated (the source message reads
"must be nonzero" where "zero" is meant; we reproduce it verbatim). -/
def rabiBoundaryMsg (startValue endValue : ℚ) : String :=
  "The values of the Rabi frequency at the first and last time points are " ++
    toString startValue ++ ", " ++ toString endValue ++
    "; they both must be nonzero."

/-- `amplitude_start_and_end_values`: when the values list is non-empty,
raise iff the first or the last value is nonzero. -/
def amplitude_start_and_end_values (timeSeriesValues : List ℚ) :
    Except String Unit :=
  match timeSeriesValues with
  | [] => Except.ok ()
  | v :: rest =>
      let startValue := v
      let endValue := (v :: rest).getLast (by simp)
      if startValue ≠ 0 ∨ endValue ≠ 0 then
        Except.error (rabiBoundaryMsg startValue endValue)
      else Except.ok ()

/-!
## Atom-arrangement row check

Embedding of `DeviceAtomArrangementValidator.sites_in_rows`
(`device_validators/device_atom_arrangement.py`, lines 101-133) together
with `_y_distance` (lines 14-17).  Sites are pairs of exact decimals,
embedded as `ℚ × ℚ`.
-/

/-- `_y_distance`: absolute y-separation of two 2-D sites. -/
def yDistance (s1 s2 : ℚ × ℚ) : ℚ := |s1.2 - s2.2|

/-- One step of the stable insertion used to model Python
`sorted(sites, key=lambda xy: xy[1])`: a new element goes after every already
placed element whose y-key is ≤ its own, so equal keys keep program order. -/
def insertByY (x : ℚ × ℚ) : List (ℚ × ℚ) → List (ℚ × ℚ)
  | [] => [x]
  | y :: ys => if y.2 ≤ x.2 then y :: insertByY x ys else x :: y :: ys

/-- Python `sorted(sites, key=lambda xy: xy[1])`.  Python sorting is stable,
and a stable sort with respect to a total key order is uniquely determined,
so left-to-right insertion sort is an exact model. -/
def sortByY (sites : List (ℚ × ℚ)) : List (ℚ × ℚ) :=
  sites.foldl (fun acc x => insertByY x acc) []

/-- The fixed finer row-separation threshold `Decimal("0.000002")` used when
the device has local-detuning capability (line 123). -/
def localRowDistance : ℚ := 2 / 1000000

/-- The data embedded in the `ValueError` raised at lines 129-132: both
sites, their y-separation and the violated minimum. -/
structure RowError where
  site1 : ℚ × ℚ
  site2 : ℚ × ℚ
  separation : ℚ
  minAllowed : ℚ
  deriving DecidableEq

/-- The message text of the row-separation `ValueError`, with the offending
data interpolated. -/
def rowErrorMsg (e : RowError) : String :=
  "Sites (" ++ toString e.site1.1 ++ ", " ++ toString e.site1.2 ++
    ") and site (" ++ toString e.site2.1 ++ ", " ++ toString e.site2.2 ++
    ") have y-separation (" ++ toString e.separation ++ "). It must " ++
    "either be exactly zero or not smaller than " ++ toString e.minAllowed ++
    " meters"

/-- The `for s1, s2 in zip(sorted_sites[:-1], sorted_sites[1:])` loop of
`sites_in_rows`: fail on the first consecutive pair whose y-separation is
neither zero nor at least the minimum. -/
def rowCheckLoop (minAllowed : ℚ) :
    List ((ℚ × ℚ) × (ℚ × ℚ)) → Except RowError Unit
  | [] => Except.ok ()
  | (s1, s2) :: rest =>
      let rowDist := yDistance s1 s2
      if rowDist = 0 then rowCheckLoop minAllowed rest
      else if rowDist < minAllowed then
        Except.error ⟨s1, s2, rowDist, minAllowed⟩
      else rowCheckLoop minAllowed rest

/-- `sites_in_rows`: sort the sites by y-coordinate; the minimum allowed row
distance is the fixed finer threshold when `LOCAL_RYDBERG_CAPABILITIES` is
set and `MIN_ROW_DISTANCE` otherwise; then scan consecutive pairs. -/
def sites_in_rows (localRydbergCapabilities : Bool) (minRowDistance : ℚ)
    (sites : List (ℚ × ℚ)) : Except RowError Unit :=
  let sortedSites := sortByY sites
  let minAllowed :=
    if localRydbergCapabilities then localRowDistance else minRowDistance
  rowCheckLoop minAllowed (sortedSites.zip sortedSites.tail)

/-!
## Analog capability constants builder (Quera register)

Embedding of the `QueraDeviceCapabilities` register of
`_get_ahs_device_capabilities` (`aws_emulation.py`, lines 264-323).  The
input structures carry exactly the nested capability fields that the builder
reads.
-/

/-- `paradigm.lattice.geometry` fields read by the builder. -/
structure LatticeGeometry where
  numberSitesMax : ℕ
  spacingRadialMin : ℚ
  spacingVerticalMin : ℚ
  positionResolution : ℚ

/-- `paradigm.lattice.area` fields read by the builder. -/
structure LatticeArea where
  width : ℚ
  height : ℚ

/-- `paradigm.rydberg.rydbergGlobal` fields read by the builder. -/
structure RydbergGlobal where
  timeMin : ℚ
  timeMax : ℚ
  timeResolution : ℚ
  timeDeltaMin : ℚ
  rabiFrequencyRange : ℚ × ℚ
  rabiFrequencyResolution : ℚ
  rabiFrequencySlewRateMax : ℚ
  phaseRange : ℚ × ℚ
  phaseResolution : ℚ
  detuningRange : ℚ × ℚ
  detuningResolution : ℚ
  detuningSlewRateMax : ℚ

/-- `paradigm.rydberg.rydbergLocal` fields read by the builder (the nested
"local Rydberg" calibration block, absent on devices without local
detuning). -/
structure RydbergLocal where
  spacingRadialMin : ℚ
  timeResolution : ℚ
  timeDeltaMin : ℚ
  detuningRange : ℚ × ℚ
  detuningSlewRateMax : ℚ
  numberLocalDetuningSitesMax : ℕ
  siteCoefficientRange : ℚ × ℚ

/-- The part of a `QueraDeviceCapabilities` record that the builder reads. -/
structure QueraCapabilities where
  qubitCount : ℕ
  geometry : LatticeGeometry
  area : LatticeArea
  rydbergGlobal : RydbergGlobal
  rydbergLocal : Option RydbergLocal

/-- Modelled from the spec: the flat `DeviceCapabilitiesConstants` record
itself lives outside `src/` (module
`emulation_passes/ahs_passes/device_capabilities_constants`); its field set
is modelled from spec sections 3 and 4.4 and from the repository's own test
fixture `conftest.py` (under `src/test`), which constructs the record with
exactly these keys.  Optional fields default to the absent sentinel `none`,
and the local-detuning flag defaults to `false`. -/
structure DeviceCapabilitiesConstants where
  DIMENSIONS : ℕ := 2
  MAX_SITES : ℕ
  MIN_DISTANCE : ℚ
  MIN_ROW_DISTANCE : ℚ
  SITE_PRECISION : ℚ
  BOUNDING_BOX_SIZE_X : ℚ
  BOUNDING_BOX_SIZE_Y : ℚ
  MAX_FILLED_SITES : ℕ
  MIN_TIME : ℚ
  MAX_TIME : ℚ
  GLOBAL_TIME_PRECISION : ℚ
  GLOBAL_MIN_TIME_SEPARATION : ℚ
  GLOBAL_AMPLITUDE_VALUE_MIN : ℚ
  GLOBAL_AMPLITUDE_VALUE_MAX : ℚ
  GLOBAL_AMPLITUDE_VALUE_PRECISION : ℚ
  GLOBAL_AMPLITUDE_SLOPE_MAX : ℚ
  GLOBAL_PHASE_VALUE_MIN : ℚ
  GLOBAL_PHASE_VALUE_MAX : ℚ
  GLOBAL_PHASE_VALUE_PRECISION : ℚ
  GLOBAL_DETUNING_VALUE_MIN : ℚ
  GLOBAL_DETUNING_VALUE_MAX : ℚ
  GLOBAL_DETUNING_VALUE_PRECISION : ℚ
  GLOBAL_DETUNING_SLOPE_MAX : ℚ
  MAX_NET_DETUNING : Option ℚ := none
  LOCAL_RYDBERG_CAPABILITIES : Bool := false
  LOCAL_MIN_DISTANCE_BETWEEN_SHIFTED_SITES : Option ℚ := none
  LOCAL_TIME_PRECISION : Option ℚ := none
  LOCAL_MIN_TIME_SEPARATION : Option ℚ := none
  LOCAL_MAGNITUDE_SEQUENCE_VALUE_MIN : Option ℚ := none
  LOCAL_MAGNITUDE_SEQUENCE_VALUE_MAX : Option ℚ := none
  LOCAL_MAGNITUDE_SLOPE_MAX : Option ℚ := none
  LOCAL_MAX_NONZERO_PATTERN_VALUES : Option ℕ := none
  MAGNITUDE_PATTERN_VALUE_MIN : Option ℚ := none
  MAGNITUDE_PATTERN_VALUE_MAX : Option ℚ := none

/-- The Quera register of `_get_ahs_device_capabilities`
(`aws_emulation.py` lines 264-323): flatten the nested capability record;
the local-detuning keys are set only when the nested `rydbergLocal` block is
present. -/
def getAhsDeviceCapabilitiesQuera (p : QueraCapabilities) :
    DeviceCapabilitiesConstants :=
  let base : DeviceCapabilitiesConstants :=
    { MAX_SITES := p.geometry.numberSitesMax
      MIN_DISTANCE := p.geometry.spacingRadialMin
      MIN_ROW_DISTANCE := p.geometry.spacingVerticalMin
      SITE_PRECISION := p.geometry.positionResolution
      BOUNDING_BOX_SIZE_X := p.area.width
      BOUNDING_BOX_SIZE_Y := p.area.height
      MAX_FILLED_SITES := p.qubitCount
      MIN_TIME := p.rydbergGlobal.timeMin
      MAX_TIME := p.rydbergGlobal.timeMax
      GLOBAL_TIME_PRECISION := p.rydbergGlobal.timeResolution
      GLOBAL_MIN_TIME_SEPARATION := p.rydbergGlobal.timeDeltaMin
      GLOBAL_AMPLITUDE_VALUE_MIN := p.rydbergGlobal.rabiFrequencyRange.1
      GLOBAL_AMPLITUDE_VALUE_MAX := p.rydbergGlobal.rabiFrequencyRange.2
      GLOBAL_AMPLITUDE_VALUE_PRECISION := p.rydbergGlobal.rabiFrequencyResolution
      GLOBAL_AMPLITUDE_SLOPE_MAX := p.rydbergGlobal.rabiFrequencySlewRateMax
      GLOBAL_PHASE_VALUE_MIN := p.rydbergGlobal.phaseRange.1
      GLOBAL_PHASE_VALUE_MAX := p.rydbergGlobal.phaseRange.2
      GLOBAL_PHASE_VALUE_PRECISION := p.rydbergGlobal.phaseResolution
      GLOBAL_DETUNING_VALUE_MIN := p.rydbergGlobal.detuningRange.1
      GLOBAL_DETUNING_VALUE_MAX := p.rydbergGlobal.detuningRange.2
      GLOBAL_DETUNING_VALUE_PRECISION := p.rydbergGlobal.detuningResolution
      GLOBAL_DETUNING_SLOPE_MAX := p.rydbergGlobal.detuningSlewRateMax }
  match p.rydbergLocal with
  | none => base
  | some rl =>
      { base with
        LOCAL_RYDBERG_CAPABILITIES := true
        LOCAL_MIN_DISTANCE_BETWEEN_SHIFTED_SITES := some rl.spacingRadialMin
        LOCAL_TIME_PRECISION := some rl.timeResolution
        LOCAL_MIN_TIME_SEPARATION := some rl.timeDeltaMin
        LOCAL_MAGNITUDE_SEQUENCE_VALUE_MIN := some rl.detuningRange.1
        LOCAL_MAGNITUDE_SEQUENCE_VALUE_MAX := some rl.detuningRange.2
        LOCAL_MAGNITUDE_SLOPE_MAX := some rl.detuningSlewRateMax
        LOCAL_MAX_NONZERO_PATTERN_VALUES := some rl.numberLocalDetuningSitesMax
        MAGNITUDE_PATTERN_VALUE_MIN := some rl.siteCoefficientRange.1
        MAGNITUDE_PATTERN_VALUE_MAX := some rl.siteCoefficientRange.2 }

/-- Presence flags of every local-detuning-related optional constant of the
flat record: the nine constants the builder manages, followed by
`MAX_NET_DETUNING` (present in the record per the repository's test
fixtures, never populated by this builder). -/
def localDetuningConstantIsSet (c : DeviceCapabilitiesConstants) :
    List Bool :=
  [c.LOCAL_MIN_DISTANCE_BETWEEN_SHIFTED_SITES.isSome,
   c.LOCAL_TIME_PRECISION.isSome,
   c.LOCAL_MIN_TIME_SEPARATION.isSome,
   c.LOCAL_MAGNITUDE_SEQUENCE_VALUE_MIN.isSome,
   c.LOCAL_MAGNITUDE_SEQUENCE_VALUE_MAX.isSome,
   c.LOCAL_MAGNITUDE_SLOPE_MAX.isSome,
   c.LOCAL_MAX_NONZERO_PATTERN_VALUES.isSome,
   c.MAGNITUDE_PATTERN_VALUE_MIN.isSome,
   c.MAGNITUDE_PATTERN_VALUE_MAX.isSome,
   c.MAX_NET_DETUNING.isSome]

/-- A concrete Quera capability record with the local Rydberg block present,
used to refute the claimed count of eleven populated constants. -/
def queraExampleWithLocal : QueraCapabilities :=
  { qubitCount := 4
    geometry :=
      { numberSitesMax := 8, spacingRadialMin := 4, spacingVerticalMin := 4
        positionResolution := 1 }
    area := { width := 75, height := 76 }
    rydbergGlobal :=
      { timeMin := 0, timeMax := 4, timeResolution := 1, timeDeltaMin := 1
        rabiFrequencyRange := (0, 158), rabiFrequencyResolution := 4
        rabiFrequencySlewRateMax := 25, phaseRange := (-99, 99)
        phaseResolution := 5, detuningRange := (-125, 125)
        detuningResolution := 1, detuningSlewRateMax := 25 }
    rydbergLocal :=
      some { spacingRadialMin := 5, timeResolution := 1, timeDeltaMin := 1
             detuningRange := (0, 125), detuningSlewRateMax := 12
             numberLocalDetuningSitesMax := 200
             siteCoefficientRange := (0, 1) } }

/-!
## Amplitude ramp-correction quadratic

Embedding of the closed-form quadratic coefficient solve of
`AhsNoise._apply_amplitude_errors` (`ahs_noisy_pass.py`, lines 211-222),
used for each linear segment of the original amplitude series whose
interpolated correction fraction is below 1.
-/

/-- The coefficients `(a, b, c)` of the quadratic correction
`f(t) = a*t^2 + b*t + c` computed at `ahs_noisy_pass.py` lines 220-222. -/
def rampCorrectionCoeffs (t1 t2 v1 v2 frac : ℚ) : ℚ × ℚ × ℚ :=
  let a := 3 * (v1 + frac * v1 + v2 - frac * v2) / (t1 - t2) ^ 2
  let c := (t2 * v1 * ((2 + 3 * frac) * t1 + t2) +
      t1 * v2 * (t1 + (2 - 3 * frac) * t2)) / (t1 - t2) ^ 2
  let b := (v2 - c - a * t2 ^ 2) / t2
  (a, b, c)

/-- Evaluation of the quadratic `f(t) = a*t^2 + b*t + c`. -/
def quadEval (a b c t : ℚ) : ℚ := a * t ^ 2 + b * t + c

/-- The definite integral of the quadratic over `[t1, t2]`,
`a/3*(t2^3-t1^3) + b/2*(t2^2-t1^2) + c*(t2-t1)` (the closed form stated in
the source comment at lines 217-218). -/
def quadIntegral (a b c t1 t2 : ℚ) : ℚ :=
  a / 3 * (t2 ^ 3 - t1 ^ 3) + b / 2 * (t2 ^ 2 - t1 ^ 2) + c * (t2 - t1)

/-!
## Gate-connectivity graph derivation (Rigetti/IQM register)

Embedding of the Rigetti/IQM register of `_gate_connectivity_validator`
(`aws_emulation.py`, lines 135-171; textually identical code is registered
as `_gate_connectivity_criterion` in `aws_emulator_helpers.py`, lines
112-148).  A networkx `DiGraph` whose edges carry a `supported_gates`
attribute is embedded as an edge list plus an attribute map; `none` models a
missing `supported_gates` key.
-/

/-- A directed graph whose edges may carry a `supported_gates` set. -/
structure GateGraph where
  edges : List Edge
  attr : Edge → Option (Finset String)

/-- Pointwise update of an attribute map. -/
def updAttr (f : Edge → Option (Finset String)) (e : Edge)
    (s : Finset String) : Edge → Option (Finset String) :=
  fun x => if x = e then some s else f x

/-- networkx `add_edge(u, v, supported_gates=s)`: insert the edge if absent
(existing edges keep their position) and set its attribute. -/
def GateGraph.addEdge (g : GateGraph) (e : Edge) (s : Finset String) :
    GateGraph :=
  { edges := BraketEmu.addEdge g.edges e, attr := updAttr g.attr e s }

/-- The device-capability inputs the derivation reads: the
`standardized.twoQubitProperties` calibration map (edge key to the reported
`gateName` list of `twoQubitGateFidelity`) and the family's gate-name
translation (`_get_qpu_gate_translation`: the `CPHASE` to `CPhaseShift`
table for Rigetti, the identity for IQM). -/
structure QpuCalibration where
  twoQubitProperties : List (String × List String)
  translate : String → String

/-- The Python edge key `"-".join([str(qubit) for qubit in (u, v)])`. -/
def edgeKey (u v : Nat) : String := toString u ++ "-" ++ toString v

/-- The supported-gate set assigned to an edge by the first loop: the empty
set when the calibration map has no entry for the edge key (a calibration
entry with an empty fidelity list is truthy-empty in Python and also yields
the empty set), else the translated gate names. -/
def calSet (cal : QpuCalibration) (e : Edge) : Finset String :=
  match cal.twoQubitProperties.lookup (edgeKey e.1 e.2) with
  | none => ∅
  | some names => (names.map cal.translate).toFinset

/-- Body of the first loop (`aws_emulation.py` lines 148-159): store the
calibration-derived gate set on the edge (the empty set when the QHP
provided no calibration data for this edge; no error is raised). -/
def populateEdge (cal : QpuCalibration) (g : GateGraph) (e : Edge) :
    GateGraph :=
  { g with attr := updAttr g.attr e (calSet cal e) }

/-- The copied input graph followed by the first loop: the input adjacency
(with no `supported_gates` attributes) with every edge annotated. -/
def populateGraph (cal : QpuCalibration) (es : List Edge) : GateGraph :=
  es.foldl (populateEdge cal) { edges := es, attr := fun _ => none }

/-- Body of the second loop (`aws_emulation.py` lines 163-169): if the
reversed edge is absent, or carries no `supported_gates` attribute, or
carries the empty set, insert it with a copy of the forward edge's gate set.
The forward edge always has an attribute here (the first loop annotated
every edge and inserted back-edges are annotated on insertion), so the
`getD` default is never taken. -/
def backEdgeStep (g : GateGraph) (e : Edge) : GateGraph :=
  let rev : Edge := (e.2, e.1)
  if rev ∉ g.edges ∨ g.attr rev = none ∨ g.attr rev = some ∅ then
    g.addEdge rev ((g.attr e).getD ∅)
  else g

/-- The second loop.  networkx iterates the live adjacency structure, so
back-edges inserted during the loop may themselves be visited; visiting such
an edge leaves the graph unchanged (its reverse is an original annotated
edge: when that annotation is non-empty the condition fails, and when it is
empty the step re-inserts it with an equal copy), so the loop is equivalent
to folding over the initial edge list. -/
def addGateBackEdges (g : GateGraph) : GateGraph :=
  g.edges.foldl backEdgeStep g

/-- The full Rigetti/IQM gate-connectivity derivation: copy the input
adjacency, annotate every edge from calibration, then synthesize reverse
edges. -/
def gateConnectivityGraphRigettiIqm (cal : QpuCalibration) (es : List Edge) :
    GateGraph :=
  addGateBackEdges (populateGraph cal es)

/-- The attribute map of the derived graph after the back-edge loop has
processed the edges of `P` (with `E` the input edge list): an input edge
keeps its populated set unless that set was empty and its processed reverse
donated a copy; a non-input edge holds a copy of its processed reverse's
populated set; everything else is unannotated. -/
def finalAttr (cal : QpuCalibration) (E P : List Edge) (e : Edge) :
    Option (Finset String) :=
  if e ∈ E then
    some (if calSet cal e = ∅ ∧ (e.2, e.1) ∈ P then calSet cal (e.2, e.1)
      else calSet cal e)
  else if (e.2, e.1) ∈ P then some (calSet cal (e.2, e.1))
  else none

/-- Loop invariant of the back-edge loop: after processing the prefix `P` of
the input edge list `E`, the edge set is `E` plus the reverses of `P`, and
the attributes are described by `finalAttr`. -/
def GateInv (cal : QpuCalibration) (E P : List Edge) (g : GateGraph) :
    Prop :=
  (∀ x : Edge, x ∈ g.edges ↔ x ∈ E ∨ (x.2, x.1) ∈ P) ∧
  (∀ x : Edge, g.attr x = finalAttr cal E P x)

/-- Calibration input with no entries at all, used to witness C3. -/
def calNoData : QpuCalibration :=
  { twoQubitProperties := [], translate := fun s => s }

/-- Calibration input providing one direction of calibration data only,
used to witness C2's amended theorem. -/
def calOneDirection : QpuCalibration :=
  { twoQubitProperties := [("0-1", ["CZ"])], translate := fun s => s }

/-- Calibration input carrying distinct non-empty entries for both
directions of the same qubit pair. -/
def calBothDirections : QpuCalibration :=
  { twoQubitProperties := [("0-1", ["CZ"]), ("1-0", ["ISWAP"])]
    translate := fun s => s }

/-!
## Circuit validation against the gate-connectivity graph

Embedding of `GateConnectivityCriterion.validate` and
`GateConnectivityCriterion.validate_instruction_connectivity`
(`emulators/emulator_passes/criteria/gate_connectivity_criterion.py`,
lines 50-116).  The criterion's own graph carries a node list (a networkx
`DiGraph` can hold nodes beyond edge endpoints), an edge list and the
per-edge `supported_gates` attribute.
-/

/-- The graph held by a `GateConnectivityCriterion`. -/
structure CriterionGraph where
  nodes : List Nat
  edges : List Edge
  attr : Edge → Option (Finset String)

/-- The distinct error conditions of the validator, one constructor per
raise site: the structural no-end-verbatim error (line 86), the missing
target-qubit error (lines 78-80), the unrecognized-targeting error
(line 107), the disconnected-pair error (line 111), the unsupported-gate
error (lines 113-116); `missingSupportedGates` models the Python `KeyError`
when an edge lacks the `supported_gates` attribute (line 112) and
`emptyTarget` the Python `IndexError` on `instruction.target[0]`
(line 76). -/
inductive GCError where
  | noEndVerbatim (idx : Nat)
  | qubitNotInTopology (q : Nat)
  | unrecognizedTargeting
  | notConnected (u v : Nat)
  | unsupportedGate (u v : Nat) (name : String)
  | missingSupportedGates (u v : Nat)
  | emptyTarget
  deriving DecidableEq

/-- A circuit instruction as inspected by the validator: verbatim-box
markers, a gate with its name, arity and the instruction's control/target
qubit lists, or any other (non-gate) operator. -/
inductive Instruction where
  | startVerbatimBox
  | endVerbatimBox
  | gate (name : String) (qubitCount : Nat) (control : List Nat)
      (target : List Nat)
  | nonGate
  deriving DecidableEq

/-- The edge checks shared by both branches of
`validate_instruction_connectivity` (lines 109-116): the pair must be an
edge of the graph and the gate name must be in that edge's
`supported_gates` set. -/
def checkEdgeGate (g : CriterionGraph) (gateName : String) (e : Edge) :
    Except GCError Unit :=
  if e ∉ g.edges then Except.error (GCError.notConnected e.1 e.2)
  else
    match g.attr e with
    | none => Except.error (GCError.missingSupportedGates e.1 e.2)
    | some s =>
        if gateName ∈ s then Except.ok ()
        else Except.error (GCError.unsupportedGate e.1 e.2 gateName)

/-- `validate_instruction_connectivity` (lines 89-116): a (control, target)
pair or a (target₀, target₁) pair forms the edge; any other shape raises
the unrecognized-targeting error. -/
def validate_instruction_connectivity (g : CriterionGraph)
    (gateName : String) (controlQubits targetQubits : List Nat) :
    Except GCError Unit :=
  match controlQubits, targetQubits with
  | [c], [t] => checkEdgeGate g gateName (c, t)
  | [], [t0, t1] => checkEdgeGate g gateName (t0, t1)
  | _, _ => Except.error GCError.unrecognizedTargeting

/-- The per-instruction body of the verbatim-block scan (lines 66-80): a
2-qubit gate goes through `validate_instruction_connectivity`; any other
gate only requires its first target qubit to be a node of the graph;
non-gate operators are skipped. -/
def checkBlockInstruction (g : CriterionGraph) :
    Instruction → Except GCError Unit
  | Instruction.gate name qubitCount control target =>
      if qubitCount = 2 then
        validate_instruction_connectivity g name control target
      else
        match target with
        | [] => Except.error GCError.emptyTarget
        | t :: _ =>
            if t ∈ g.nodes then Except.ok ()
            else Except.error (GCError.qubitNotInTopology t)
  | _ => Except.ok ()

/-- The `while` scan of a verbatim block (lines 62-87): validate each
instruction until an `EndVerbatimBox`; reaching the end of the circuit
first raises the structural no-end-verbatim error carrying the reached
index. -/
def scanVerbatimBlock (g : CriterionGraph) :
    List Instruction → Nat → Except GCError Unit
  | [], idx => Except.error (GCError.noEndVerbatim idx)
  | i :: rest, idx =>
      if i = Instruction.endVerbatimBox then Except.ok ()
      else
        match checkBlockInstruction g i with
        | Except.error e => Except.error e
        | Except.ok _ => scanVerbatimBlock g rest (idx + 1)

/-- The outer `for idx in range(len(circuit.instructions))` loop of
`validate` (lines 59-87).  The Python loop variable is re-assigned inside
the body but `range` resets it, so the outer scan visits every index;
a `StartVerbatimBox` at the current index triggers a block scan of the
following instructions. -/
def validateFrom (g : CriterionGraph) :
    List Instruction → Nat → Except GCError Unit
  | [], _ => Except.ok ()
  | i :: rest, idx =>
      if i = Instruction.startVerbatimBox then
        match scanVerbatimBlock g rest (idx + 1) with
        | Except.error e => Except.error e
        | Except.ok _ => validateFrom g rest (idx + 1)
      else validateFrom g rest (idx + 1)

/-- `GateConnectivityCriterion.validate`. -/
def validate (g : CriterionGraph) (instructions : List Instruction) :
    Except GCError Unit :=
  validateFrom g instructions 0

/-- The circuit contains a `StartVerbatimBox` with no `EndVerbatimBox`
anywhere after it. -/
def hasUnclosedStart : List Instruction → Prop
  | [] => False
  | i :: rest =>
      (i = Instruction.startVerbatimBox ∧
        Instruction.endVerbatimBox ∉ rest) ∨ hasUnclosedStart rest

/-- A small criterion graph: nodes 0 and 1, the single edge (0,1)
supporting the gate CZ. -/
def criterionGraphExample : CriterionGraph :=
  { nodes := [0, 1]
    edges := [(0, 1)]
    attr := fun e => if e = ((0, 1) : Edge) then some {"CZ"} else none }

/-!
## Frame effect: the builders never mutate the caller's graph

The Python builders receive a caller-owned networkx `DiGraph` object and
mutate only a fresh `connectivity_graph.copy()`.  To make the mutation
discipline provable, graph objects live in an explicit store (a heap of
graph values addressed by references); `copy()` allocates a new reference
at the end of the store and every `add_edge` targets a reference.  Each
builder is the store-level transcription of the corresponding register in
`aws_emulation.py`.
-/

/-- A heap of graph objects. -/
abbrev Store := List GateGraph

/-- The empty graph, used as the out-of-range default of a reference read
(never reached for valid references). -/
def emptyGraph : GateGraph := { edges := [], attr := fun _ => none }

/-- Dereference. -/
def readRef (s : Store) (i : Nat) : GateGraph := s.getD i emptyGraph

/-- In-place mutation of the object behind a reference. -/
def writeRef (s : Store) (i : Nat) (g : GateGraph) : Store := s.set i g

/-- `connectivity_graph.copy()`: allocate a fresh object with the same
value and return its reference. -/
def copyRef (s : Store) (i : Nat) : Store × Nat :=
  (s ++ [readRef s i], s.length)

/-- networkx `add_edge(u, v)` with no attribute argument: inserts the edge
if absent, leaving attributes untouched. -/
def GateGraph.addEdgeNoAttr (g : GateGraph) (e : Edge) : GateGraph :=
  { g with edges := BraketEmu.addEdge g.edges e }

/-- The copy-then-insert-back-edges body shared verbatim by the IQM
registers at `aws_emulation.py` lines 116-119, 385-388 and 398-400:
`connectivity_graph = connectivity_graph.copy()` followed by
`for edge in connectivity_graph.edges: connectivity_graph.add_edge(edge[1], edge[0])`,
with every `add_edge` hitting the copy's reference. -/
def copyAndAddBackEdges (s : Store) (i : Nat) : Store × Nat :=
  let copied := copyRef s i
  let s1 := copied.1
  let j := copied.2
  let s2 := (readRef s1 j).edges.foldl
    (fun st e => writeRef st j ((readRef st j).addEdgeNoAttr (e.2, e.1))) s1
  (s2, j)

/-- Store-level IQM register of `_connectivity_validator`
(`aws_emulation.py` lines 109-119); the returned reference is the graph
wrapped by the `ConnectivityValidator`. -/
def connectivityValidatorIqmStore (s : Store) (i : Nat) : Store × Nat :=
  copyAndAddBackEdges s i

/-- Store-level IQM register of `_lexi_mapping_routing_pass`
(`aws_emulation.py` lines 378-388); the returned reference is the graph
handed to `LexiRoutingPass`. -/
def lexiMappingRoutingPassIqmStore (s : Store) (i : Nat) : Store × Nat :=
  copyAndAddBackEdges s i

/-- Store-level IQM register of `create_nativization_pass`
(`aws_emulation.py` lines 396-414): copy, insert back edges, then read the
copy's edge list to build the tket `Architecture` (the remaining pass
construction reads no graph). -/
def createNativizationPassIqmStore (s : Store) (i : Nat) :
    Store × List Edge :=
  let built := copyAndAddBackEdges s i
  (built.1, (readRef built.1 built.2).edges)

/-- Store-level Rigetti/IQM register of `_gate_connectivity_validator`
(`aws_emulation.py` lines 135-171): copy, annotate every edge of the copy
from calibration, then synthesize reverse edges on the copy. -/
def gateConnectivityValidatorStore (cal : QpuCalibration) (s : Store)
    (i : Nat) : Store × Nat :=
  let copied := copyRef s i
  let s1 := copied.1
  let j := copied.2
  let s2 := (readRef s1 j).edges.foldl
    (fun st e => writeRef st j (populateEdge cal (readRef st j) e)) s1
  let s3 := (readRef s2 j).edges.foldl
    (fun st e => writeRef st j (backEdgeStep (readRef st j) e)) s2
  (s3, j)

/-!
## AHS noise injection (`AhsNoise.run`)

Embedding of `AhsNoise` (`ahs_noisy_pass.py`).  Exact reals are embedded as
`ℚ`.  The process-global numpy random source is embedded as an explicit
bundle of sample streams (one stream per `np.random` call site, indexed by
position), which models any realization of the randomness.
`TimeSeries.from_lists` of the braket timings module lives outside `src/`
and is modelled from the spec (a time series is a list of time points with
a value per point), with the SDK's rejection of lists of unequal lengths.
-/

/-- A time series as a list of times with a value per point. -/
structure TimeSeriesQ where
  times : List ℚ
  values : List ℚ
  deriving DecidableEq

/-- Modelled from the spec: `TimeSeries.from_lists` (braket timings module,
outside `src/`) builds a time series from a times list and a values list of
equal lengths and rejects lists whose lengths differ. -/
def TimeSeriesFromLists (times values : List ℚ) :
    Except String TimeSeriesQ :=
  if times.length = values.length then
    Except.ok { times := times, values := values }
  else
    Except.error "The lengths of the times and values lists are not equal."

/-- The relevant content of an input `AnalogHamiltonianSimulation`: the
register's site coordinates and filling, and the driving-field time series.
(In an `AnalogHamiltonianSimulation` the filling list always has one entry
per site.) -/
structure AhsProgramQ where
  sites : List (ℚ × ℚ)
  filling : List Nat
  amplitude : TimeSeriesQ
  phase : TimeSeriesQ
  detuning : TimeSeriesQ

/-- One `(rampTime, rabiCorrection)` pair of the device's
`rabiAmplitudeRampCorrection` calibration curve. -/
structure RampCorrectionPoint where
  rampTime : ℚ
  rabiCorrection : ℚ

/-- `AhsNoiseData` (`ahs_noisy_pass.py` lines 17-29). -/
structure AhsNoiseData where
  site_position_error : ℚ
  filling_error : ℚ
  vacancy_error : ℚ
  ground_prep_error : ℚ
  rabi_amplitude_ramp_correction : List RampCorrectionPoint
  rabi_frequency_error_rel : ℚ
  rabi_amplitude_max : ℚ
  detuning_error : ℚ
  detuning_inhomogeneity : ℚ
  atom_detection_error_false_positive : ℚ
  atom_detection_error_false_negative : ℚ

/-- One stream per `np.random` call site of the pass, indexed by element
position: the 2-D site-position gaussians, the three binomial-trial draws
(each 0 or 1 in any actual run; the theorems need no constraint), the
per-point detuning gaussians, the per-site `np.random.rand` pattern draws
and the per-value rabi gaussians. -/
structure RandomSource where
  sitePosNormal : Nat → ℚ × ℚ
  fillingDraw : Nat → Nat
  detectionDraw : Nat → Nat
  groundPrepDraw : Nat → Nat
  detuningNormal : Nat → ℚ
  patternRand : Nat → ℚ
  rabiNormal : Nat → ℚ

/-- Map with the element index, used to feed position-indexed sample
streams. -/
def mapEnum {α β : Type} (f : Nat → α → β) (l : List α) : List β :=
  l.enum.map (fun p => f p.1 p.2)

/-- `np.abs` on an exact real. -/
def qAbs (x : ℚ) : ℚ := if x < 0 then -x else x

/-- `np.sign` on an exact real. -/
def qSign (x : ℚ) : ℚ := if 0 < x then 1 else if x < 0 then -1 else 0

/-- `np.linspace(start, stop, num)`: `num` evenly spaced points from
`start` to `stop` inclusive (`[start]` when `num = 1`). -/
def npLinspace (start stop : ℚ) (num : Nat) : List ℚ :=
  if num = 1 then [start]
  else (List.range num).map
    (fun (k : Nat) => start + (stop - start) * (k : ℚ) / ((num : ℚ) - 1))

/-- Piecewise-linear interpolation through a point list, clamped to the
boundary values outside the node range (`np.interp` semantics). -/
def interpPoints : List (ℚ × ℚ) → ℚ → ℚ
  | [], _ => 0
  | [(_, y0)], _ => y0
  | (x0, y0) :: (x1, y1) :: rest, x =>
      if x ≤ x0 then y0
      else if x ≤ x1 then y0 + (y1 - y0) * (x - x0) / (x1 - x0)
      else interpPoints ((x1, y1) :: rest) x

/-- `np.interp(x, xp, fp)`. -/
def npInterp (x : ℚ) (xp fp : List ℚ) : ℚ := interpPoints (xp.zip fp) x

/-- Piecewise-linear interpolation with linear extrapolation from the two
boundary segments (`scipy.interpolate.interp1d` with
`fill_value="extrapolate"`). -/
def interpExtrapPoints : List (ℚ × ℚ) → ℚ → ℚ
  | [], _ => 0
  | [(_, y0)], _ => y0
  | (x0, y0) :: (x1, y1) :: rest, x =>
      if x ≤ x1 ∨ rest = [] then y0 + (y1 - y0) * (x - x0) / (x1 - x0)
      else interpExtrapPoints ((x1, y1) :: rest) x

/-- The ramp-correction curve rewritten as slopes
(`rabi_amplitude_max / rampTime`), reversed for ascending order
(`ahs_noisy_pass.py` lines 177-185). -/
def rampCorrectionSlopes (nd : AhsNoiseData) : List ℚ :=
  (nd.rabi_amplitude_ramp_correction.map
    (fun corr => nd.rabi_amplitude_max / corr.rampTime)).reverse

/-- The correction fractions of the curve, reversed to match. -/
def rampCorrectionFracs (nd : AhsNoiseData) : List ℚ :=
  (nd.rabi_amplitude_ramp_correction.map
    (fun corr => corr.rabiCorrection)).reverse

/-- `get_frac`: interpolate the correction fraction for a slope
(lines 187-192). -/
def getFrac (nd : AhsNoiseData) (slope : ℚ) : ℚ :=
  interpExtrapPoints
    ((rampCorrectionSlopes nd).zip (rampCorrectionFracs nd)) slope

/-- `_apply_site_position_error` (lines 89-97): each site is shifted by the
position-error scale times a fresh 2-D gaussian sample. -/
def apply_site_position_error (nd : AhsNoiseData) (rnd : Nat → ℚ × ℚ)
    (sites : List (ℚ × ℚ)) : List (ℚ × ℚ) :=
  mapEnum (fun k site =>
    (site.1 + nd.site_position_error * (rnd k).1,
     site.2 + nd.site_position_error * (rnd k).2)) sites

/-- `_apply_binomial_noise` (lines 99-112): each 1 entry flips to 0 with
the `p10` trial and each other entry flips to 1 with the `p01` trial; the
stream entry is the sampled Bernoulli outcome of the element's trial.  The
probabilities select the trial distribution and do not otherwise enter the
computation. -/
def apply_binomial_noise (draw : Nat → Nat) (arr : List Nat)
    (p01 p10 : ℚ) : List Nat :=
  mapEnum (fun k val => if val = 1 then 1 - draw k else draw k) arr

/-- `_apply_lattice_initialization_errors` (lines 69-86): returns the
perturbed sites, the perturbed filling (filling/vacancy errors, then
ground-state-preparation error) and the detection pre-sequence. -/
def apply_lattice_initialization_errors (nd : AhsNoiseData)
    (rs : RandomSource) (program : AhsProgramQ) :
    List (ℚ × ℚ) × List Nat × List Nat :=
  let erroneousSites :=
    apply_site_position_error nd rs.sitePosNormal program.sites
  let erroneousFilling := apply_binomial_noise rs.fillingDraw
    program.filling nd.filling_error nd.vacancy_error
  let preSeq := apply_binomial_noise rs.detectionDraw erroneousFilling
    nd.atom_detection_error_false_negative
    nd.atom_detection_error_false_positive
  let erroneousFilling2 := apply_binomial_noise rs.groundPrepDraw
    erroneousFilling 0 nd.ground_prep_error
  (erroneousSites, erroneousFilling2, preSeq)

/-- `_apply_detuning_errors` (lines 134-168): resample the detuning onto a
uniform grid of `steps` points, add gaussian detuning noise, and build the
spatially-uniform local-detuning inhomogeneity channel (a constant series
on the same grid with a random per-site pattern). -/
def apply_detuning_errors (nd : AhsNoiseData) (rs : RandomSource)
    (detuning : TimeSeriesQ) (fillings : List Nat) (steps : Nat) :
    Except String (TimeSeriesQ × TimeSeriesQ × List ℚ) :=
  match detuning.times.getLast? with
  | none => Except.error "IndexError: index -1 is out of bounds"
  | some tLast =>
      let noisyDetuningTimes := npLinspace 0 tLast steps
      let interpolated := noisyDetuningTimes.map
        (fun t => npInterp t detuning.times detuning.values)
      let noisyDetuningValues := mapEnum
        (fun k v => v + nd.detuning_error * rs.detuningNormal k)
        interpolated
      match TimeSeriesFromLists noisyDetuningTimes noisyDetuningValues with
      | Except.error e => Except.error e
      | Except.ok noisyDetuning =>
          let h := mapEnum (fun k _ => rs.patternRand k) fillings
          match TimeSeriesFromLists noisyDetuningTimes
              (noisyDetuningTimes.map
                (fun _ => nd.detuning_inhomogeneity)) with
          | Except.error e => Except.error e
          | Except.ok detuningLocal =>
              Except.ok (noisyDetuning, detuningLocal, h)

/-- One segment's contribution to the corrected amplitude values
(lines 198-227): the slope determines the correction fraction; when the
fraction is at least 1 the quadratic degenerates to the constant `v2`;
every resample grid point `t` with `t1 ≤ t ≤ t2` contributes a value. -/
def segmentValues (nd : AhsNoiseData) (grid : List ℚ)
    (t1 t2 v1 v2 : ℚ) : List ℚ :=
  let slope := (v2 - v1) / (t2 - t1)
  let frac := if 0 < qAbs slope then getFrac nd (qAbs slope) * qSign slope
    else 1
  let abc : ℚ × ℚ × ℚ :=
    if 1 ≤ frac then (0, 0, v2) else rampCorrectionCoeffs t1 t2 v1 v2 frac
  (grid.filter (fun t => decide (t1 ≤ t) && decide (t ≤ t2))).map
    (fun t => abc.1 * t ^ 2 + abc.2.1 * t + abc.2.2)

/-- The consecutive `((t1, v1), (t2, v2))` segments of a series. -/
def segmentsOf (ts : TimeSeriesQ) : List ((ℚ × ℚ) × (ℚ × ℚ)) :=
  (ts.times.zip ts.values).zip (ts.times.zip ts.values).tail

/-- The ramp-corrected values: segment-major concatenation of the
per-segment contributions (the `for ind` / `for t` loop nest of
lines 198-227). -/
def rampCorrectedValues (nd : AhsNoiseData) (grid : List ℚ)
    (ts : TimeSeriesQ) : List ℚ :=
  (segmentsOf ts).flatMap
    (fun seg => segmentValues nd grid seg.1.1 seg.2.1 seg.1.2 seg.2.2)

/-- `_apply_amplitude_errors` (lines 172-237): ramp-correct the amplitude
per segment onto the uniform grid, apply multiplicative relative gaussian
noise, clamp at zero, and assemble the series. -/
def apply_amplitude_errors (nd : AhsNoiseData) (rs : RandomSource)
    (amplitude : TimeSeriesQ) (steps : Nat) :
    Except String TimeSeriesQ :=
  match amplitude.times.getLast? with
  | none => Except.error "IndexError: index -1 is out of bounds"
  | some tLast =>
      let noisyAmplitudeTimes := npLinspace 0 tLast steps
      let corrected := rampCorrectedValues nd noisyAmplitudeTimes amplitude
      let noisyAmplitudeValues := mapEnum
        (fun k v =>
          max 0 (v * (1 + nd.rabi_frequency_error_rel * rs.rabiNormal k)))
        corrected
      TimeSeriesFromLists noisyAmplitudeTimes noisyAmplitudeValues

/-- The output program assembled at lines 47-63: the register (each site
with its filled flag), the noisy driving field (the phase passes through)
and the synthesized local-detuning channel. -/
structure AhsOutput where
  register : List ((ℚ × ℚ) × Bool)
  amplitude : TimeSeriesQ
  phase : TimeSeriesQ
  detuning : TimeSeriesQ
  localDetuningMagnitude : TimeSeriesQ
  localDetuningPattern : List ℚ

/-- `AhsNoise.run` / `_apply_noise_model` on an
`AnalogHamiltonianSimulation` (lines 40-63): lattice initialization errors,
then rydberg noise (detuning first, then amplitude), then reassembly. -/
def AhsNoiseRun (nd : AhsNoiseData) (rs : RandomSource)
    (program : AhsProgramQ) (steps : Nat) : Except String AhsOutput :=
  let lattice := apply_lattice_initialization_errors nd rs program
  match apply_detuning_errors nd rs program.detuning program.filling
      steps with
  | Except.error e => Except.error e
  | Except.ok det =>
      match apply_amplitude_errors nd rs program.amplitude steps with
      | Except.error e => Except.error e
      | Except.ok amp =>
          Except.ok
            { register := (lattice.1.zip lattice.2.1).map
                (fun p => (p.1, p.2 = 1))
              amplitude := amp
              phase := program.phase
              detuning := det.1
              localDetuningMagnitude := det.2.1
              localDetuningPattern := det.2.2 }

/-- The in-segment test a resample grid point must pass to contribute a
value for a given segment. -/
def inSegment (seg : (ℚ × ℚ) × (ℚ × ℚ)) (t : ℚ) : Bool :=
  decide (seg.1.1 ≤ t) && decide (t ≤ seg.2.1)

/-- The output that `AhsNoiseRun` produces when both `from_lists`
assemblies succeed (`tA`, `tD` are the last amplitude and detuning time
points); a proof-side normal form of the run. -/
def ahsExpectedOutput (nd : AhsNoiseData) (rs : RandomSource)
    (program : AhsProgramQ) (steps : Nat) (tA tD : ℚ) : AhsOutput :=
  { register := ((apply_lattice_initialization_errors nd rs program).1.zip
      (apply_lattice_initialization_errors nd rs program).2.1).map
        (fun p => (p.1, p.2 = 1))
    amplitude :=
      { times := npLinspace 0 tA steps
        values := mapEnum (fun k v => max 0 (v *
          (1 + nd.rabi_frequency_error_rel * rs.rabiNormal k)))
          (rampCorrectedValues nd (npLinspace 0 tA steps)
            program.amplitude) }
    phase := program.phase
    detuning :=
      { times := npLinspace 0 tD steps
        values := mapEnum
          (fun k v => v + nd.detuning_error * rs.detuningNormal k)
          ((npLinspace 0 tD steps).map
            (fun t => npInterp t program.detuning.times
              program.detuning.values)) }
    localDetuningMagnitude :=
      { times := npLinspace 0 tD steps
        values := (npLinspace 0 tD steps).map
          (fun _ => nd.detuning_inhomogeneity) }
    localDetuningPattern :=
      mapEnum (fun k _ => rs.patternRand k) program.filling }

/-- Noise data with every error parameter zero and an empty ramp-correction
curve, used for concrete instantiations. -/
def ndZero : AhsNoiseData :=
  { site_position_error := 0
    filling_error := 0
    vacancy_error := 0
    ground_prep_error := 0
    rabi_amplitude_ramp_correction := []
    rabi_frequency_error_rel := 0
    rabi_amplitude_max := 0
    detuning_error := 0
    detuning_inhomogeneity := 0
    atom_detection_error_false_positive := 0
    atom_detection_error_false_negative := 0 }

/-- A randomness realization with every sample zero. -/
def rsZero : RandomSource :=
  { sitePosNormal := fun _ => (0, 0)
    fillingDraw := fun _ => 0
    detectionDraw := fun _ => 0
    groundPrepDraw := fun _ => 0
    detuningNormal := fun _ => 0
    patternRand := fun _ => 0
    rabiNormal := fun _ => 0 }

/-- One filled site with one-segment pulses on `[0, 2]`. -/
def programTwoPoint : AhsProgramQ :=
  { sites := [(0, 0)]
    filling := [1]
    amplitude := { times := [0, 2], values := [0, 0] }
    phase := { times := [0, 2], values := [0, 0] }
    detuning := { times := [0, 2], values := [0, 0] } }

/-- The same program with an interior amplitude breakpoint at time 1, which
lies on the 3-point resample grid of `[0, 2]`. -/
def programBreakpoint : AhsProgramQ :=
  { sites := [(0, 0)]
    filling := [1]
    amplitude := { times := [0, 1, 2], values := [0, 0, 0] }
    phase := { times := [0, 1, 2], values := [0, 0, 0] }
    detuning := { times := [0, 2], values := [0, 0] } }

theorem mem_addEdge {es : List Edge} {e a : Edge} :
    a ∈ addEdge es e ↔ a ∈ es ∨ a = e := by
  unfold addEdge
  by_cases h : e ∈ es
  · rw [if_pos h]
    exact ⟨Or.inl, fun h' => h'.elim id (fun he => he ▸ h)⟩
  · rw [if_neg h]
    simp

theorem mem_foldl_addEdge_swap {l : List Edge} {acc : List Edge} {a : Edge} :
    a ∈ l.foldl (fun acc e => addEdge acc (e.2, e.1)) acc ↔
      a ∈ acc ∨ (a.2, a.1) ∈ l := by
  induction l generalizing acc with
  | nil => simp
  | cons x xs ih =>
      simp only [List.foldl_cons, ih, mem_addEdge, List.mem_cons]
      constructor
      · rintro ((h | rfl) | h)
        · exact Or.inl h
        · exact Or.inr (Or.inl rfl)
        · exact Or.inr (Or.inr h)
      · rintro (h | h | h)
        · exact Or.inl (Or.inl h)
        · exact Or.inl (Or.inr (by cases a; cases x; simp_all))
        · exact Or.inr h

theorem mem_addBackEdges {es : List Edge} {a : Edge} :
    a ∈ addBackEdges es ↔ a ∈ es ∨ (a.2, a.1) ∈ es := by
  unfold addBackEdges
  exact mem_foldl_addEdge_swap

/-- C1: for every input directed connectivity graph, the connectivity
validator built for an IQM (undirected-family) capabilities record contains
the reverse of every input edge and its graph is symmetric, while the default
dispatch case wraps a graph exactly equal to the input adjacency. -/
theorem C1_connectivity_validator_symmetry (es : List Edge) (u v : Nat) :
    ((u, v) ∈ es → (v, u) ∈ connectivityValidatorIqm es) ∧
    ((u, v) ∈ connectivityValidatorIqm es ↔ (v, u) ∈ connectivityValidatorIqm es) ∧
    connectivityValidatorDefault es = es := by
  refine ⟨?_, ?_, rfl⟩
  · intro h
    exact mem_addBackEdges.mpr (Or.inr h)
  · simp only [connectivityValidatorIqm, mem_addBackEdges]
    exact Or.comm

/-- Witness for C1, instantiating end-to-end scenario A: connectivity
{(0,1),(0,2)} reported one-directionally yields a derived graph containing
(1,0), and the derived graph is symmetric at that pair. -/
theorem C1_connectivity_validator_symmetry_witness :
    (1, 0) ∈ connectivityValidatorIqm [(0, 1), (0, 2)] ∧
    ((0, 1) ∈ connectivityValidatorIqm [(0, 1), (0, 2)] ↔
      (1, 0) ∈ connectivityValidatorIqm [(0, 1), (0, 2)]) ∧
    connectivityValidatorDefault [(0, 1), (0, 2)] = [(0, 1), (0, 2)] :=
  ⟨(C1_connectivity_validator_symmetry [(0, 1), (0, 2)] 0 1).1 (by decide),
   (C1_connectivity_validator_symmetry [(0, 1), (0, 2)] 0 1).2.1,
   (C1_connectivity_validator_symmetry [(0, 1), (0, 2)] 0 1).2.2⟩

example : connectivityValidatorIqm [(0, 1), (0, 2)] = [(0, 1), (0, 2), (1, 0), (2, 0)] := by
  decide

theorem amplitude_start_and_end_values_eq (vals : List ℚ) (h : vals ≠ []) :
    amplitude_start_and_end_values vals =
      if vals.head h ≠ 0 ∨ vals.getLast h ≠ 0 then
        Except.error (rabiBoundaryMsg (vals.head h) (vals.getLast h))
      else Except.ok () := by
  cases vals with
  | nil => exact absurd rfl h
  | cons v rest => rfl

/-- C6: for every driving-field amplitude series with a non-empty values
list, the boundary-value check raises an error iff the first or the last
value is nonzero (regardless of the values in between), the raised message
embeds both boundary values, and a series starting and ending at exactly 0
passes. -/
theorem C6_amplitude_boundary_check (vals : List ℚ) (h : vals ≠ []) :
    ((∃ e, amplitude_start_and_end_values vals = Except.error e) ↔
      (vals.head h ≠ 0 ∨ vals.getLast h ≠ 0)) ∧
    (∀ e, amplitude_start_and_end_values vals = Except.error e →
      e = rabiBoundaryMsg (vals.head h) (vals.getLast h)) ∧
    (vals.head h = 0 ∧ vals.getLast h = 0 →
      amplitude_start_and_end_values vals = Except.ok ()) := by
  rw [amplitude_start_and_end_values_eq vals h]
  by_cases hne : vals.head h ≠ 0 ∨ vals.getLast h ≠ 0
  · rw [if_pos hne]
    refine ⟨⟨fun _ => hne, fun _ => ⟨_, rfl⟩⟩,
      fun e he => by injection he with h'; exact h'.symm, ?_⟩
    rintro ⟨h0, hl⟩
    rcases hne with hx | hx
    · exact absurd h0 hx
    · exact absurd hl hx
  · rw [if_neg hne]
    exact ⟨⟨fun hx => absurd (Except.noConfusion hx.choose_spec) id,
      fun hx => absurd hx hne⟩,
      fun e he => Except.noConfusion he, fun _ => rfl⟩

/-- Witness for C6, instantiating end-to-end scenario C: an amplitude series
starting and ending at 0 passes; flipping the last value to a nonzero one
fails with the message citing both boundary values. -/
theorem C6_amplitude_boundary_check_witness :
    amplitude_start_and_end_values [0, 1, 0] = Except.ok () ∧
    amplitude_start_and_end_values [0, 1, 5] =
      Except.error (rabiBoundaryMsg 0 5) := by
  constructor
  · exact (C6_amplitude_boundary_check [0, 1, 0] (by simp)).2.2 (by norm_num)
  · obtain ⟨e, he⟩ :=
      (C6_amplitude_boundary_check [0, 1, 5] (by simp)).1.mpr (by norm_num)
    have hmsg := (C6_amplitude_boundary_check [0, 1, 5] (by simp)).2.1 e he
    rw [hmsg] at he
    simpa using he

theorem rowCheckLoop_ok_iff (minAllowed : ℚ)
    (ps : List ((ℚ × ℚ) × (ℚ × ℚ))) :
    rowCheckLoop minAllowed ps = Except.ok () ↔
      ∀ p ∈ ps, yDistance p.1 p.2 = 0 ∨ minAllowed ≤ yDistance p.1 p.2 := by
  induction ps with
  | nil => simp [rowCheckLoop]
  | cons p rest ih =>
      obtain ⟨s1, s2⟩ := p
      by_cases h0 : yDistance s1 s2 = 0
      · rw [show rowCheckLoop minAllowed ((s1, s2) :: rest) =
              rowCheckLoop minAllowed rest by simp [rowCheckLoop, h0], ih]
        constructor
        · intro hall q hq
          rcases List.mem_cons.mp hq with rfl | hq
          · exact Or.inl h0
          · exact hall q hq
        · intro hall q hq
          exact hall q (List.mem_cons_of_mem _ hq)
      · by_cases hlt : yDistance s1 s2 < minAllowed
        · rw [show rowCheckLoop minAllowed ((s1, s2) :: rest) =
                Except.error ⟨s1, s2, yDistance s1 s2, minAllowed⟩ by
              simp [rowCheckLoop, h0, hlt]]
          constructor
          · intro he
            exact absurd he (by simp)
          · intro hall
            rcases hall (s1, s2) (List.mem_cons_self _ _) with hz | hge
            · exact absurd hz h0
            · exact absurd hge (not_le.mpr hlt)
        · rw [show rowCheckLoop minAllowed ((s1, s2) :: rest) =
                rowCheckLoop minAllowed rest by
              simp [rowCheckLoop, h0, hlt], ih]
          constructor
          · intro hall q hq
            rcases List.mem_cons.mp hq with rfl | hq
            · exact Or.inr (not_lt.mp hlt)
            · exact hall q hq
          · intro hall q hq
            exact hall q (List.mem_cons_of_mem _ hq)

theorem rowCheckLoop_error (minAllowed : ℚ)
    (ps : List ((ℚ × ℚ) × (ℚ × ℚ))) (e : RowError) :
    rowCheckLoop minAllowed ps = Except.error e →
      (e.site1, e.site2) ∈ ps ∧ e.separation = yDistance e.site1 e.site2 ∧
        e.minAllowed = minAllowed ∧ e.separation ≠ 0 ∧
        e.separation < minAllowed := by
  induction ps with
  | nil => intro h; exact absurd h (by simp [rowCheckLoop])
  | cons p rest ih =>
      obtain ⟨s1, s2⟩ := p
      intro h
      by_cases h0 : yDistance s1 s2 = 0
      · rw [show rowCheckLoop minAllowed ((s1, s2) :: rest) =
              rowCheckLoop minAllowed rest by simp [rowCheckLoop, h0]] at h
        obtain ⟨hm, rest'⟩ := ih h
        exact ⟨List.mem_cons_of_mem _ hm, rest'⟩
      · by_cases hlt : yDistance s1 s2 < minAllowed
        · rw [show rowCheckLoop minAllowed ((s1, s2) :: rest) =
                Except.error ⟨s1, s2, yDistance s1 s2, minAllowed⟩ by
              simp [rowCheckLoop, h0, hlt]] at h
          injection h with h
          subst h
          exact ⟨List.mem_cons_self _ _, rfl, rfl, h0, hlt⟩
        · rw [show rowCheckLoop minAllowed ((s1, s2) :: rest) =
                rowCheckLoop minAllowed rest by
              simp [rowCheckLoop, h0, hlt]] at h
          obtain ⟨hm, rest'⟩ := ih h
          exact ⟨List.mem_cons_of_mem _ hm, rest'⟩

/-- C8: the row check sorts sites by y-coordinate and succeeds iff every
consecutive pair of the sorted list has y-distance exactly 0 or at least the
minimum row separation, where the minimum is the fixed finer threshold
0.000002 when the device has local-detuning capability and
`MIN_ROW_DISTANCE` otherwise; when the check fails, the error embeds a
violating consecutive pair, its y-separation and the violated minimum. -/
theorem C8_sites_in_rows_characterization (localRydbergCapabilities : Bool)
    (minRowDistance : ℚ) (sites : List (ℚ × ℚ)) :
    (sites_in_rows localRydbergCapabilities minRowDistance sites =
        Except.ok () ↔
      ∀ p ∈ (sortByY sites).zip (sortByY sites).tail,
        yDistance p.1 p.2 = 0 ∨
          (if localRydbergCapabilities then localRowDistance
            else minRowDistance) ≤ yDistance p.1 p.2) ∧
    (∀ e, sites_in_rows localRydbergCapabilities minRowDistance sites =
        Except.error e →
      (e.site1, e.site2) ∈ (sortByY sites).zip (sortByY sites).tail ∧
        e.separation = yDistance e.site1 e.site2 ∧
        e.minAllowed = (if localRydbergCapabilities then localRowDistance
          else minRowDistance) ∧
        e.separation ≠ 0 ∧ e.separation < e.minAllowed) := by
  constructor
  · exact rowCheckLoop_ok_iff _ _
  · intro e he
    obtain ⟨hm, hsep, hmin, hne, hlt⟩ := rowCheckLoop_error _ _ e he
    exact ⟨hm, hsep, hmin, hne, hmin ▸ hlt⟩

theorem sites_in_rows_pair_eval :
    sites_in_rows false (4 / 1000000)
      [(0, 0), (0, 1 / 1000000)] =
    Except.error ⟨(0, 0), (0, 1 / 1000000), 1 / 1000000, 4 / 1000000⟩ := by
  norm_num [sites_in_rows, sortByY, insertByY, rowCheckLoop, yDistance,
    localRowDistance]
  rw [abs_of_nonneg (by norm_num : (0 : ℚ) ≤ 1 / 1000000)]
  norm_num

/-- Witness for C8 at two sites whose rows are 1 micrometre apart against a
4 micrometre minimum: the raised error embeds the violating pair, its
y-separation and the violated minimum. -/
theorem C8_sites_in_rows_characterization_witness :
    ((0, 0), (0, 1 / 1000000)) ∈
      (sortByY [((0 : ℚ), (0 : ℚ)), (0, 1 / 1000000)]).zip
        (sortByY [((0 : ℚ), (0 : ℚ)), (0, 1 / 1000000)]).tail ∧
    (1 / 1000000 : ℚ) = yDistance (0, 0) (0, 1 / 1000000) ∧
    (4 / 1000000 : ℚ) =
      (if false then localRowDistance else (4 / 1000000 : ℚ)) ∧
    (1 / 1000000 : ℚ) ≠ 0 ∧ (1 / 1000000 : ℚ) < 4 / 1000000 :=
  (C8_sites_in_rows_characterization false (4 / 1000000)
    [(0, 0), (0, 1 / 1000000)]).2
    ⟨(0, 0), (0, 1 / 1000000), 1 / 1000000, 4 / 1000000⟩
    sites_in_rows_pair_eval

/-- C7 counterexample: the flat constants record has ten local-detuning
related optional constants, not eleven, and even at a capability record with
the local Rydberg block present not all of them are populated
(`MAX_NET_DETUNING` never is); so the claim's "all eleven ... are populated"
is false as stated. -/
theorem C7_eleven_constants_counterexample :
    (localDetuningConstantIsSet
        (getAhsDeviceCapabilitiesQuera queraExampleWithLocal)).length ≠ 11 ∧
    ¬ (∀ b ∈ localDetuningConstantIsSet
        (getAhsDeviceCapabilitiesQuera queraExampleWithLocal), b = true) := by
  constructor
  · decide
  · decide

/-- C7 (amended): for every Quera capability record, when the nested
`rydbergLocal` block is absent the builder yields the local-detuning flag
`false` and all nine local-detuning constants it manages at the absent
sentinel `none` (and `MAX_NET_DETUNING` is `none` always); when the block is
present, those nine are populated from the corresponding nested fields and
the flag is set `true`. -/
theorem C7_local_detuning_constants (p : QueraCapabilities) :
    (getAhsDeviceCapabilitiesQuera p).LOCAL_RYDBERG_CAPABILITIES =
        p.rydbergLocal.isSome ∧
    (getAhsDeviceCapabilitiesQuera p).LOCAL_MIN_DISTANCE_BETWEEN_SHIFTED_SITES =
        p.rydbergLocal.map (fun rl => rl.spacingRadialMin) ∧
    (getAhsDeviceCapabilitiesQuera p).LOCAL_TIME_PRECISION =
        p.rydbergLocal.map (fun rl => rl.timeResolution) ∧
    (getAhsDeviceCapabilitiesQuera p).LOCAL_MIN_TIME_SEPARATION =
        p.rydbergLocal.map (fun rl => rl.timeDeltaMin) ∧
    (getAhsDeviceCapabilitiesQuera p).LOCAL_MAGNITUDE_SEQUENCE_VALUE_MIN =
        p.rydbergLocal.map (fun rl => rl.detuningRange.1) ∧
    (getAhsDeviceCapabilitiesQuera p).LOCAL_MAGNITUDE_SEQUENCE_VALUE_MAX =
        p.rydbergLocal.map (fun rl => rl.detuningRange.2) ∧
    (getAhsDeviceCapabilitiesQuera p).LOCAL_MAGNITUDE_SLOPE_MAX =
        p.rydbergLocal.map (fun rl => rl.detuningSlewRateMax) ∧
    (getAhsDeviceCapabilitiesQuera p).LOCAL_MAX_NONZERO_PATTERN_VALUES =
        p.rydbergLocal.map (fun rl => rl.numberLocalDetuningSitesMax) ∧
    (getAhsDeviceCapabilitiesQuera p).MAGNITUDE_PATTERN_VALUE_MIN =
        p.rydbergLocal.map (fun rl => rl.siteCoefficientRange.1) ∧
    (getAhsDeviceCapabilitiesQuera p).MAGNITUDE_PATTERN_VALUE_MAX =
        p.rydbergLocal.map (fun rl => rl.siteCoefficientRange.2) ∧
    (getAhsDeviceCapabilitiesQuera p).MAX_NET_DETUNING = none := by
  cases hl : p.rydbergLocal with
  | none =>
      refine ⟨?_, ?_, ?_, ?_, ?_, ?_, ?_, ?_, ?_, ?_, ?_⟩ <;>
        simp [getAhsDeviceCapabilitiesQuera, hl]
  | some rl =>
      refine ⟨?_, ?_, ?_, ?_, ?_, ?_, ?_, ?_, ?_, ?_, ?_⟩ <;>
        simp [getAhsDeviceCapabilitiesQuera, hl]

/-- C4 counterexample: at the segment `t1 = 1, t2 = 3, v1 = 1, v2 = 2` with
correction fraction `frac = 1/2 < 1`, the quadratic's integral over the
segment is `1/2`, which is not `frac` times the trapezoid area
`(t2-t1)*(v1+v2)/2 = 3` under the straight-line segment; the claim's
trapezoid reading is false on the code. -/
theorem C4_trapezoid_counterexample :
    ((1 : ℚ) / 2 < 1) ∧
    quadIntegral (rampCorrectionCoeffs 1 3 1 2 (1 / 2)).1
        (rampCorrectionCoeffs 1 3 1 2 (1 / 2)).2.1
        (rampCorrectionCoeffs 1 3 1 2 (1 / 2)).2.2 1 3 = 1 / 2 ∧
    (1 / 2 : ℚ) * ((3 - 1) * (1 + 2) / 2) = 3 / 2 ∧
    ((1 : ℚ) / 2 ≠ 3 / 2) := by
  refine ⟨by norm_num, ?_, by norm_num, by norm_num⟩
  norm_num [rampCorrectionCoeffs, quadIntegral]

/-- C4 (amended): for every segment `[t1, t2]` with `t1 ≠ t2`, `t2 ≠ 0` and
values `(v1, v2)` and every correction fraction `frac < 1`, the quadratic
computed by the ramp-correction step matches the segment values at both
endpoints, and its definite integral over `[t1, t2]` equals
`frac * (t2 - t1) * (v2 - v1) / 2` — the target stated in the source's own
comment — not `frac` times the trapezoid area. -/
theorem C4_ramp_correction_quadratic (t1 t2 v1 v2 frac : ℚ)
    (hne : t1 ≠ t2) (ht2 : t2 ≠ 0) (hfrac : frac < 1) :
    quadEval (rampCorrectionCoeffs t1 t2 v1 v2 frac).1
        (rampCorrectionCoeffs t1 t2 v1 v2 frac).2.1
        (rampCorrectionCoeffs t1 t2 v1 v2 frac).2.2 t1 = v1 ∧
    quadEval (rampCorrectionCoeffs t1 t2 v1 v2 frac).1
        (rampCorrectionCoeffs t1 t2 v1 v2 frac).2.1
        (rampCorrectionCoeffs t1 t2 v1 v2 frac).2.2 t2 = v2 ∧
    quadIntegral (rampCorrectionCoeffs t1 t2 v1 v2 frac).1
        (rampCorrectionCoeffs t1 t2 v1 v2 frac).2.1
        (rampCorrectionCoeffs t1 t2 v1 v2 frac).2.2 t1 t2 =
      frac * (t2 - t1) * (v2 - v1) / 2 := by
  have hsub : t1 - t2 ≠ 0 := sub_ne_zero.mpr hne
  refine ⟨?_, ?_, ?_⟩ <;>
    · simp only [rampCorrectionCoeffs, quadEval, quadIntegral]
      field_simp
      ring

/-- Witness for C4's amended theorem at the concrete segment
`t1 = 1, t2 = 3, v1 = 1, v2 = 2, frac = 1/2`. -/
theorem C4_ramp_correction_quadratic_witness :
    quadEval (rampCorrectionCoeffs 1 3 1 2 (1 / 2)).1
        (rampCorrectionCoeffs 1 3 1 2 (1 / 2)).2.1
        (rampCorrectionCoeffs 1 3 1 2 (1 / 2)).2.2 1 = 1 ∧
    quadEval (rampCorrectionCoeffs 1 3 1 2 (1 / 2)).1
        (rampCorrectionCoeffs 1 3 1 2 (1 / 2)).2.1
        (rampCorrectionCoeffs 1 3 1 2 (1 / 2)).2.2 3 = 2 ∧
    quadIntegral (rampCorrectionCoeffs 1 3 1 2 (1 / 2)).1
        (rampCorrectionCoeffs 1 3 1 2 (1 / 2)).2.1
        (rampCorrectionCoeffs 1 3 1 2 (1 / 2)).2.2 1 3 =
      (1 / 2) * (3 - 1) * (2 - 1) / 2 :=
  C4_ramp_correction_quadratic 1 3 1 2 (1 / 2) (by norm_num) (by norm_num)
    (by norm_num)

theorem populateGraph_edges (cal : QpuCalibration) (es : List Edge) :
    (populateGraph cal es).edges = es := by
  unfold populateGraph
  have h : ∀ (l : List Edge) (g : GateGraph),
      (l.foldl (populateEdge cal) g).edges = g.edges := by
    intro l
    induction l with
    | nil => intro g; rfl
    | cons x xs ih => intro g; exact ih _
  exact h es _

theorem foldl_populateEdge_attr (cal : QpuCalibration) (l : List Edge)
    (g : GateGraph) (e : Edge) :
    (l.foldl (populateEdge cal) g).attr e =
      if e ∈ l then some (calSet cal e) else g.attr e := by
  induction l generalizing g with
  | nil => simp
  | cons x xs ih =>
      rw [List.foldl_cons, ih]
      by_cases hmem : e ∈ xs
      · rw [if_pos hmem, if_pos (List.mem_cons_of_mem _ hmem)]
      · rw [if_neg hmem]
        by_cases hex : e = x
        · rw [if_pos (hex ▸ List.mem_cons_self x xs)]
          simp [populateEdge, updAttr, hex]
        · rw [if_neg (by simp [hex, hmem])]
          simp [populateEdge, updAttr, hex]

theorem populateGraph_attr (cal : QpuCalibration) (es : List Edge)
    (e : Edge) :
    (populateGraph cal es).attr e =
      if e ∈ es then some (calSet cal e) else none := by
  unfold populateGraph
  rw [foldl_populateEdge_attr]

theorem swap_eq_iff (x : Edge) (a b : Nat) :
    ((x.2, x.1) = ((a, b) : Edge)) ↔ x = ((b, a) : Edge) := by
  obtain ⟨x1, x2⟩ := x
  simp only [Prod.ext_iff]
  exact and_comm

theorem finalAttr_append_ne (cal : QpuCalibration) (E P : List Edge)
    (u v : Nat) (x : Edge) (hx : x ≠ ((v, u) : Edge)) :
    finalAttr cal E (P ++ [(u, v)]) x = finalAttr cal E P x := by
  have h : ((x.2, x.1) ∈ P ++ [((u, v) : Edge)]) ↔ (x.2, x.1) ∈ P := by
    rw [List.mem_append, List.mem_singleton, swap_eq_iff]
    simp [hx]
  unfold finalAttr
  simp only [h]

theorem gateInv_step (cal : QpuCalibration) (E P : List Edge)
    (g : GateGraph) (e : Edge) (heE : e ∈ E) (hP : e ∉ P)
    (hPE : ∀ x ∈ P, x ∈ E) (hInv : GateInv cal E P g) :
    GateInv cal E (P ++ [e]) (backEdgeStep g e) := by
  obtain ⟨u, v⟩ := e
  obtain ⟨hEdges, hAttr⟩ := hInv
  by_cases hrevE : ((v, u) : Edge) ∈ E
  · have hrevMem : ((v, u) : Edge) ∈ g.edges := (hEdges _).mpr (Or.inl hrevE)
    have hrevAttr : g.attr (v, u) = some (calSet cal (v, u)) := by
      rw [hAttr]
      unfold finalAttr
      rw [if_pos hrevE]
      have : ¬ (calSet cal (v, u) = ∅ ∧ ((u, v) : Edge) ∈ P) :=
        fun hc => hP hc.2
      rw [if_neg this]
    by_cases hAe : calSet cal (v, u) = ∅
    · -- the reverse edge exists but is annotated with the empty set:
      -- it receives a copy of the forward set
      have hfwd : (g.attr (u, v)).getD ∅ = calSet cal (u, v) := by
        rw [hAttr]
        unfold finalAttr
        rw [if_pos heE]
        by_cases hc : calSet cal (u, v) = ∅ ∧ ((v, u) : Edge) ∈ P
        · rw [if_pos hc]
          simp only [Option.getD_some]
          rw [hAe, hc.1]
        · rw [if_neg hc]
          rfl
      have hstep : backEdgeStep g (u, v) =
          g.addEdge (v, u) (calSet cal (u, v)) := by
        show (if ((v, u) : Edge) ∉ g.edges ∨ g.attr (v, u) = none ∨
            g.attr (v, u) = some ∅ then
          g.addEdge (v, u) ((g.attr (u, v)).getD ∅) else g) = _
        rw [if_pos (Or.inr (Or.inr (by rw [hrevAttr, hAe])))]
        rw [hfwd]
      rw [hstep]
      constructor
      · intro x
        show x ∈ BraketEmu.addEdge g.edges (v, u) ↔ _
        rw [mem_addEdge, hEdges x, List.mem_append, List.mem_singleton,
          swap_eq_iff]
        tauto
      · intro x
        show updAttr g.attr (v, u) (calSet cal (u, v)) x = _
        unfold updAttr
        by_cases hx : x = ((v, u) : Edge)
        · rw [if_pos hx, hx]
          unfold finalAttr
          rw [if_pos hrevE,
            if_pos ⟨hAe, by rw [List.mem_append, List.mem_singleton]; tauto⟩]
        · rw [if_neg hx, hAttr x, finalAttr_append_ne cal E P u v x hx]
    · -- the reverse edge exists with a non-empty set: the step is a no-op
      have hstep : backEdgeStep g (u, v) = g := by
        show (if ((v, u) : Edge) ∉ g.edges ∨ g.attr (v, u) = none ∨
            g.attr (v, u) = some ∅ then
          g.addEdge (v, u) ((g.attr (u, v)).getD ∅) else g) = g
        rw [if_neg]
        push_neg
        refine ⟨hrevMem, by rw [hrevAttr]; simp, ?_⟩
        rw [hrevAttr]
        intro hcontra
        exact hAe (Option.some_injective _ hcontra)
      rw [hstep]
      constructor
      · intro x
        rw [hEdges x, List.mem_append, List.mem_singleton, swap_eq_iff]
        constructor
        · tauto
        · rintro (h | h | rfl)
          · exact Or.inl h
          · exact Or.inr h
          · exact Or.inl hrevE
      · intro x
        by_cases hx : x = ((v, u) : Edge)
        · rw [hAttr x, hx]
          unfold finalAttr
          rw [if_pos hrevE, if_pos hrevE,
            if_neg (fun hc => hAe hc.1), if_neg (fun hc => hAe hc.1)]
        · rw [hAttr x, finalAttr_append_ne cal E P u v x hx]
  · -- the reverse pair is not an input edge and has not been inserted yet
    have hrevNot : ((v, u) : Edge) ∉ g.edges := by
      rw [hEdges]
      rintro (h | h)
      · exact hrevE h
      · exact hP h
    have hfwd : (g.attr (u, v)).getD ∅ = calSet cal (u, v) := by
      rw [hAttr]
      unfold finalAttr
      rw [if_pos heE, if_neg (fun hc => hrevE (hPE _ hc.2))]
      rfl
    have hstep : backEdgeStep g (u, v) =
        g.addEdge (v, u) (calSet cal (u, v)) := by
      show (if ((v, u) : Edge) ∉ g.edges ∨ g.attr (v, u) = none ∨
          g.attr (v, u) = some ∅ then
        g.addEdge (v, u) ((g.attr (u, v)).getD ∅) else g) = _
      rw [if_pos (Or.inl hrevNot), hfwd]
    rw [hstep]
    constructor
    · intro x
      show x ∈ BraketEmu.addEdge g.edges (v, u) ↔ _
      rw [mem_addEdge, hEdges x, List.mem_append, List.mem_singleton,
        swap_eq_iff]
      tauto
    · intro x
      show updAttr g.attr (v, u) (calSet cal (u, v)) x = _
      unfold updAttr
      by_cases hx : x = ((v, u) : Edge)
      · rw [if_pos hx, hx]
        unfold finalAttr
        rw [if_neg hrevE, if_pos (by rw [List.mem_append, List.mem_singleton]; tauto)]
      · rw [if_neg hx, hAttr x, finalAttr_append_ne cal E P u v x hx]

theorem gateInv_foldl (cal : QpuCalibration) (E : List Edge)
    (hnd : E.Nodup) :
    ∀ (R P : List Edge) (g : GateGraph), P ++ R = E →
      GateInv cal E P g → GateInv cal E (P ++ R) (R.foldl backEdgeStep g) := by
  intro R
  induction R with
  | nil =>
      intro P g _ hInv
      rw [List.append_nil]
      exact hInv
  | cons r R' ih =>
      intro P g hPR hInv
      have heE : r ∈ E := by
        rw [← hPR]
        exact List.mem_append_right _ (List.mem_cons_self _ _)
      have hP : r ∉ P := by
        intro hmem
        have hdisj : P.Disjoint (r :: R') := by
          rw [← hPR] at hnd
          exact List.disjoint_of_nodup_append hnd
        exact hdisj hmem (List.mem_cons_self _ _)
      have hPE : ∀ x ∈ P, x ∈ E := by
        intro x hx
        rw [← hPR]
        exact List.mem_append_left _ hx
      have hstep := gateInv_step cal E P g r heE hP hPE hInv
      have hfold := ih (P ++ [r]) (backEdgeStep g r)
        (by rw [List.append_assoc, List.singleton_append]; exact hPR) hstep
      rw [List.append_assoc, List.singleton_append] at hfold
      exact hfold

/-- The full Rigetti/IQM gate-connectivity derivation satisfies the loop
invariant at the fully processed state. -/
theorem gateConnectivityGraph_inv (cal : QpuCalibration) (es : List Edge)
    (hnd : es.Nodup) :
    GateInv cal es es (gateConnectivityGraphRigettiIqm cal es) := by
  have h0 : GateInv cal es [] (populateGraph cal es) := by
    constructor
    · intro x
      rw [populateGraph_edges]
      simp
    · intro x
      rw [populateGraph_attr]
      unfold finalAttr
      simp
  have hfold := gateInv_foldl cal es hnd es [] (populateGraph cal es)
    (by rw [List.nil_append]) h0
  rw [List.nil_append] at hfold
  unfold gateConnectivityGraphRigettiIqm addGateBackEdges
  rw [populateGraph_edges]
  exact hfold

/-- C3: during gate-connectivity derivation for Rigetti/IQM capabilities,
every directed edge of the input graph whose key has no calibration entry in
`twoQubitProperties` is kept in the graph (the populate loop keeps all input
edges) with its supported-gate set annotated as the empty set; the loop is
total on such edges — no error path exists, and derivation continues with
the back-edge pass. -/
theorem C3_no_calibration_entry_keeps_edge_with_empty_set
    (cal : QpuCalibration) (es : List Edge) (u v : Nat)
    (hmem : ((u, v) : Edge) ∈ es)
    (hcal : cal.twoQubitProperties.lookup (edgeKey u v) = none) :
    (populateGraph cal es).edges = es ∧
    ((u, v) : Edge) ∈ (populateGraph cal es).edges ∧
    (populateGraph cal es).attr (u, v) = some ∅ := by
  refine ⟨populateGraph_edges cal es, ?_, ?_⟩
  · rw [populateGraph_edges]
    exact hmem
  · rw [populateGraph_attr, if_pos hmem]
    simp [calSet, hcal]

/-- Witness for C3 at the concrete edge (0,1) of a one-edge graph with no
calibration data. -/
theorem C3_no_calibration_entry_keeps_edge_with_empty_set_witness :
    (populateGraph calNoData [(0, 1)]).edges = [(0, 1)] ∧
    ((0, 1) : Edge) ∈ (populateGraph calNoData [(0, 1)]).edges ∧
    (populateGraph calNoData [(0, 1)]).attr (0, 1) = some ∅ :=
  C3_no_calibration_entry_keeps_edge_with_empty_set calNoData [(0, 1)] 0 1
    (by simp) rfl

/-- C2 (amended): after the back-edge pass, every edge of the derived graph
has its reverse edge present; and whenever at least one direction of the
pair lacks a non-empty calibration-populated set — the forward or reverse
populated set is empty, or the forward or reverse pair is not an input
edge — the forward and reverse supported-gate sets of the result are equal.
(When both directions of an input pair carry distinct non-empty calibration
sets, each direction keeps its own set; see the counterexample.) -/
theorem C2_gate_connectivity_back_edge_sets (cal : QpuCalibration)
    (es : List Edge) (hnd : es.Nodup) (u v : Nat)
    (hmem : ((u, v) : Edge) ∈
      (gateConnectivityGraphRigettiIqm cal es).edges) :
    ((v, u) : Edge) ∈ (gateConnectivityGraphRigettiIqm cal es).edges ∧
    (calSet cal (u, v) = ∅ ∨ calSet cal (v, u) = ∅ ∨
        ((u, v) : Edge) ∉ es ∨ ((v, u) : Edge) ∉ es →
      (gateConnectivityGraphRigettiIqm cal es).attr (u, v) =
        (gateConnectivityGraphRigettiIqm cal es).attr (v, u)) := by
  obtain ⟨hE, hA⟩ := gateConnectivityGraph_inv cal es hnd
  have hmem' : ((u, v) : Edge) ∈ es ∨ ((v, u) : Edge) ∈ es :=
    (hE (u, v)).mp hmem
  constructor
  · rw [hE (v, u)]
    exact hmem'.symm
  · intro hcond
    rw [hA (u, v), hA (v, u)]
    unfold finalAttr
    by_cases h1 : ((u, v) : Edge) ∈ es <;>
      by_cases h2 : ((v, u) : Edge) ∈ es
    · rw [if_pos h1, if_pos h2]
      by_cases hA1 : calSet cal (u, v) = ∅ <;>
        by_cases hA2 : calSet cal (v, u) = ∅
      · simp [hA1, hA2, h1, h2]
      · simp [hA1, hA2, h1, h2]
      · simp [hA1, hA2, h1, h2]
      · rcases hcond with hc | hc | hc | hc
        · exact absurd hc hA1
        · exact absurd hc hA2
        · exact absurd h1 hc
        · exact absurd h2 hc
    · rw [if_pos h1, if_neg h2]
      simp [h1, h2]
    · rw [if_neg h1, if_pos h2]
      simp [h1, h2]
    · rcases hmem' with hc | hc
      · exact absurd hc h1
      · exact absurd hc h2

/-- Witness for C2's amended theorem: with one-directional calibration data
on the single edge (0,1), the derived graph contains the synthesized
reverse edge and both directions carry equal gate sets. -/
theorem C2_gate_connectivity_back_edge_sets_witness :
    ((1, 0) : Edge) ∈
      (gateConnectivityGraphRigettiIqm calOneDirection [(0, 1)]).edges ∧
    (gateConnectivityGraphRigettiIqm calOneDirection [(0, 1)]).attr (0, 1) =
      (gateConnectivityGraphRigettiIqm calOneDirection [(0, 1)]).attr (1, 0) := by
  have h := C2_gate_connectivity_back_edge_sets calOneDirection [(0, 1)]
    (by simp) 0 1 (by decide)
  exact ⟨h.1, h.2 (Or.inr (Or.inl (by decide)))⟩

/-- C2 counterexample: when the input graph contains both directions of a
pair and the calibration map carries distinct non-empty gate lists for the
two directed keys, the derived graph keeps different supported-gate sets on
the two directions, refuting the claimed unconditional forward/reverse
gate-set equality. -/
theorem C2_symmetric_gate_sets_counterexample :
    ((0, 1) : Edge) ∈
      (gateConnectivityGraphRigettiIqm calBothDirections
        [(0, 1), (1, 0)]).edges ∧
    ((1, 0) : Edge) ∈
      (gateConnectivityGraphRigettiIqm calBothDirections
        [(0, 1), (1, 0)]).edges ∧
    (gateConnectivityGraphRigettiIqm calBothDirections
        [(0, 1), (1, 0)]).attr (0, 1) ≠
      (gateConnectivityGraphRigettiIqm calBothDirections
        [(0, 1), (1, 0)]).attr (1, 0) := by
  refine ⟨by decide, by decide, by decide⟩

theorem scanVerbatimBlock_no_end (g : CriterionGraph)
    (l : List Instruction) (idx : Nat)
    (hno : Instruction.endVerbatimBox ∉ l)
    (hok : ∀ i ∈ l, checkBlockInstruction g i = Except.ok ()) :
    scanVerbatimBlock g l idx =
      Except.error (GCError.noEndVerbatim (idx + l.length)) := by
  induction l generalizing idx with
  | nil => rfl
  | cons i rest ih =>
      have hine : i ≠ Instruction.endVerbatimBox :=
        fun h => hno (h ▸ List.mem_cons_self _ _)
      show (if i = Instruction.endVerbatimBox then _ else _) = _
      rw [if_neg hine, hok i (List.mem_cons_self _ _)]
      rw [ih (idx + 1) (fun h => hno (List.mem_cons_of_mem _ h))
        (fun j hj => hok j (List.mem_cons_of_mem _ hj))]
      have : idx + 1 + rest.length = idx + (rest.length + 1) := by omega
      rw [List.length_cons, this]

theorem scanVerbatimBlock_closed (g : CriterionGraph)
    (l : List Instruction) (idx : Nat)
    (hend : Instruction.endVerbatimBox ∈ l)
    (hok : ∀ i ∈ l, checkBlockInstruction g i = Except.ok ()) :
    scanVerbatimBlock g l idx = Except.ok () := by
  induction l generalizing idx with
  | nil => exact absurd hend (List.not_mem_nil _)
  | cons i rest ih =>
      show (if i = Instruction.endVerbatimBox then _ else _) = _
      by_cases hi : i = Instruction.endVerbatimBox
      · rw [if_pos hi]
      · rw [if_neg hi, hok i (List.mem_cons_self _ _)]
        exact ih (idx + 1)
          ((List.mem_cons.mp hend).resolve_left (fun h => hi h.symm))
          (fun j hj => hok j (List.mem_cons_of_mem _ hj))

theorem validateFrom_unclosed (g : CriterionGraph) (l : List Instruction)
    (k : Nat) (hok : ∀ i ∈ l, checkBlockInstruction g i = Except.ok ())
    (hun : hasUnclosedStart l) :
    validateFrom g l k =
      Except.error (GCError.noEndVerbatim (k + l.length)) := by
  induction l generalizing k with
  | nil => exact absurd hun id
  | cons i rest ih =>
      have hlen : k + (i :: rest).length = (k + 1) + rest.length := by
        rw [List.length_cons]; omega
      by_cases hi : i = Instruction.startVerbatimBox
      · show (if i = Instruction.startVerbatimBox then _ else _) = _
        rw [if_pos hi]
        by_cases hend : Instruction.endVerbatimBox ∈ rest
        · rw [scanVerbatimBlock_closed g rest (k + 1) hend
            (fun j hj => hok j (List.mem_cons_of_mem _ hj))]
          have hun' : hasUnclosedStart rest := by
            rcases hun with ⟨-, hno⟩ | h
            · exact absurd hend hno
            · exact h
          rw [ih (k + 1) (fun j hj => hok j (List.mem_cons_of_mem _ hj))
            hun', hlen]
        · rw [scanVerbatimBlock_no_end g rest (k + 1) hend
            (fun j hj => hok j (List.mem_cons_of_mem _ hj))]
          rw [hlen]
      · show (if i = Instruction.startVerbatimBox then _ else _) = _
        rw [if_neg hi]
        have hun' : hasUnclosedStart rest := by
          rcases hun with ⟨hstart, -⟩ | h
          · exact absurd hstart hi
          · exact h
        rw [ih (k + 1) (fun j hj => hok j (List.mem_cons_of_mem _ hj)) hun',
          hlen]

/-- C9 (amended): for every circuit with a `StartVerbatimBox` that is not
followed by an `EndVerbatimBox` before the end of the circuit, provided
every instruction of the circuit passes the per-instruction connectivity
check, `validate` raises the structural no-end-verbatim error (carrying the
circuit length as the reached index); and that error is distinct from the
disconnected-pair and unsupported-gate errors. -/
theorem C9_unclosed_verbatim_structural_error (g : CriterionGraph)
    (instructions : List Instruction)
    (hok : ∀ i ∈ instructions, checkBlockInstruction g i = Except.ok ())
    (hun : hasUnclosedStart instructions) :
    validate g instructions =
      Except.error (GCError.noEndVerbatim instructions.length) ∧
    (∀ i u v name, GCError.noEndVerbatim i ≠ GCError.notConnected u v ∧
      GCError.noEndVerbatim i ≠ GCError.unsupportedGate u v name) := by
  constructor
  · have h := validateFrom_unclosed g instructions 0 hok hun
    rw [Nat.zero_add] at h
    exact h
  · intro i u v name
    exact ⟨fun h => GCError.noConfusion h, fun h => GCError.noConfusion h⟩

/-- Witness for C9's amended theorem: a verbatim box opened before a valid
CZ on the connected pair (0,1) and never closed yields the structural
error carrying the circuit length 2. -/
theorem C9_unclosed_verbatim_structural_error_witness :
    validate criterionGraphExample
        [Instruction.startVerbatimBox, Instruction.gate "CZ" 2 [0] [1]] =
      Except.error (GCError.noEndVerbatim 2) ∧
    GCError.noEndVerbatim 2 ≠ GCError.notConnected 0 1 := by
  have h := C9_unclosed_verbatim_structural_error criterionGraphExample
    [Instruction.startVerbatimBox, Instruction.gate "CZ" 2 [0] [1]]
    (by decide) (Or.inl ⟨rfl, by decide⟩)
  exact ⟨h.1, (h.2 2 0 1 "CZ").1⟩

/-- C9 counterexample: a circuit whose unterminated verbatim block contains
a 2-qubit gate on a disconnected pair makes `validate` raise the
disconnected-pair error, not the structural no-end-verbatim error, even
though the circuit contains a `StartVerbatimBox` with no matching
`EndVerbatimBox`; the claim's unconditional structural-error promise is
false as stated. -/
theorem C9_unclosed_verbatim_counterexample :
    hasUnclosedStart
      [Instruction.startVerbatimBox, Instruction.gate "CZ" 2 [0] [5]] ∧
    validate criterionGraphExample
        [Instruction.startVerbatimBox, Instruction.gate "CZ" 2 [0] [5]] =
      Except.error (GCError.notConnected 0 5) ∧
    (∀ i, validate criterionGraphExample
        [Instruction.startVerbatimBox, Instruction.gate "CZ" 2 [0] [5]] ≠
      Except.error (GCError.noEndVerbatim i)) := by
  have heval : validate criterionGraphExample
      [Instruction.startVerbatimBox, Instruction.gate "CZ" 2 [0] [5]] =
      Except.error (GCError.notConnected 0 5) := by decide
  refine ⟨Or.inl ⟨rfl, by decide⟩, heval, ?_⟩
  intro i h
  rw [heval] at h
  injection h with h2
  exact GCError.noConfusion h2

theorem readRef_writeRef_ne :
    ∀ (s : Store) (j : Nat) (g : GateGraph) (i : Nat), i ≠ j →
      readRef (writeRef s j g) i = readRef s i := by
  intro s
  induction s with
  | nil => intro j g i _; rfl
  | cons a t ih =>
      intro j g i hne
      cases j with
      | zero =>
          cases i with
          | zero => exact absurd rfl hne
          | succ i' => rfl
      | succ j' =>
          cases i with
          | zero => rfl
          | succ i' =>
              show readRef (t.set j' g) i' = readRef t i'
              exact ih j' g i' (fun h => hne (by rw [h]))

theorem readRef_foldl_writeRef_ne {α : Type}
    (f : Store → α → GateGraph) (j : Nat) :
    ∀ (l : List α) (s : Store) (i : Nat), i ≠ j →
      readRef (l.foldl (fun st e => writeRef st j (f st e)) s) i =
        readRef s i := by
  intro l
  induction l with
  | nil => intro s i _; rfl
  | cons x xs ih =>
      intro s i hne
      rw [List.foldl_cons, ih _ i hne, readRef_writeRef_ne _ j _ i hne]

theorem readRef_append_lt (s : Store) (g : GateGraph) (i : Nat)
    (h : i < s.length) : readRef (s ++ [g]) i = readRef s i := by
  unfold readRef
  induction s generalizing i with
  | nil => exact absurd h (Nat.not_lt_zero i)
  | cons a t ih =>
      cases i with
      | zero => rfl
      | succ i' =>
          show (t ++ [g]).getD i' emptyGraph = t.getD i' emptyGraph
          exact ih i' (Nat.lt_of_succ_lt_succ h)

theorem copyAndAddBackEdges_frame (s : Store) (i k : Nat)
    (h : k < s.length) :
    readRef (copyAndAddBackEdges s i).1 k = readRef s k := by
  unfold copyAndAddBackEdges copyRef
  rw [readRef_foldl_writeRef_ne _ s.length _ _ k (Nat.ne_of_lt h),
    readRef_append_lt s _ k h]

/-- C10: none of the four builder functions mutates the caller's input
graph: the store entry of the input reference — its edge list and its edge
attributes — is unchanged after each call (every insertion targets the
freshly allocated copy). -/
theorem C10_builders_do_not_mutate_input (cal : QpuCalibration)
    (s : Store) (i : Nat) (h : i < s.length) :
    readRef (connectivityValidatorIqmStore s i).1 i = readRef s i ∧
    readRef (gateConnectivityValidatorStore cal s i).1 i = readRef s i ∧
    readRef (lexiMappingRoutingPassIqmStore s i).1 i = readRef s i ∧
    readRef (createNativizationPassIqmStore s i).1 i = readRef s i := by
  refine ⟨copyAndAddBackEdges_frame s i i h, ?_,
    copyAndAddBackEdges_frame s i i h, copyAndAddBackEdges_frame s i i h⟩
  unfold gateConnectivityValidatorStore copyRef
  rw [readRef_foldl_writeRef_ne _ s.length _ _ i (Nat.ne_of_lt h),
    readRef_foldl_writeRef_ne _ s.length _ _ i (Nat.ne_of_lt h),
    readRef_append_lt s _ i h]

/-- Witness for C10 on a one-object store holding the single-edge graph
(0,1). -/
theorem C10_builders_do_not_mutate_input_witness :
    readRef (connectivityValidatorIqmStore
        [{ edges := [(0, 1)], attr := fun _ => none }] 0).1 0 =
      readRef [{ edges := [(0, 1)], attr := fun _ => none }] 0 ∧
    readRef (gateConnectivityValidatorStore calOneDirection
        [{ edges := [(0, 1)], attr := fun _ => none }] 0).1 0 =
      readRef [{ edges := [(0, 1)], attr := fun _ => none }] 0 ∧
    readRef (lexiMappingRoutingPassIqmStore
        [{ edges := [(0, 1)], attr := fun _ => none }] 0).1 0 =
      readRef [{ edges := [(0, 1)], attr := fun _ => none }] 0 ∧
    readRef (createNativizationPassIqmStore
        [{ edges := [(0, 1)], attr := fun _ => none }] 0).1 0 =
      readRef [{ edges := [(0, 1)], attr := fun _ => none }] 0 :=
  C10_builders_do_not_mutate_input calOneDirection
    [{ edges := [(0, 1)], attr := fun _ => none }] 0 (by simp)

theorem mapEnum_length {α β : Type} (f : Nat → α → β) (l : List α) :
    (mapEnum f l).length = l.length := by
  simp [mapEnum]

theorem npLinspace_length (start stop : ℚ) (num : Nat) :
    (npLinspace start stop num).length = num := by
  unfold npLinspace
  by_cases h : num = 1
  · rw [if_pos h, h]
    rfl
  · rw [if_neg h, List.length_map, List.length_range]

theorem sum_map_add {α : Type} (l : List α) (f g : α → Nat) :
    (l.map (fun a => f a + g a)).sum = (l.map f).sum + (l.map g).sum := by
  induction l with
  | nil => rfl
  | cons x xs ih =>
      rw [List.map_cons, List.map_cons, List.map_cons, List.sum_cons,
        List.sum_cons, List.sum_cons, ih]
      omega

theorem length_filter_eq_sum {α : Type} (l : List α) (q : α → Bool) :
    (l.filter q).length = (l.map (fun a => if q a then 1 else 0)).sum := by
  induction l with
  | nil => rfl
  | cons x xs ih =>
      rw [List.filter_cons, List.map_cons, List.sum_cons]
      by_cases h : q x
      · rw [if_pos h, if_pos h, List.length_cons, ih]
        omega
      · rw [if_neg (by simp [h]), if_neg h, ih]
        omega

theorem sum_filter_comm {α β : Type} (l1 : List α) (l2 : List β)
    (p : α → β → Bool) :
    (l1.map (fun a => (l2.filter (p a)).length)).sum =
      (l2.map (fun b => (l1.filter (fun a => p a b)).length)).sum := by
  induction l1 with
  | nil =>
      rw [List.map_nil, List.sum_nil]
      induction l2 with
      | nil => rfl
      | cons y ys ihy =>
          rw [List.map_cons, List.sum_cons, ← ihy, List.filter_nil,
            List.length_nil]
          omega
  | cons x xs ih =>
      rw [List.map_cons, List.sum_cons, ih]
      have hsplit : ∀ b : β,
          ((x :: xs).filter (fun a => p a b)).length =
            (if p x b then 1 else 0) + (xs.filter (fun a => p a b)).length := by
        intro b
        rw [List.filter_cons]
        by_cases h : p x b
        · rw [if_pos h, if_pos h, List.length_cons]
          omega
        · rw [if_neg (by simp [h]), if_neg h]
          omega
      calc (l2.filter (p x)).length +
            (l2.map (fun b => (xs.filter (fun a => p a b)).length)).sum
      _ = (l2.map (fun b => if p x b then 1 else 0)).sum +
            (l2.map (fun b => (xs.filter (fun a => p a b)).length)).sum := by
            rw [length_filter_eq_sum]
      _ = (l2.map (fun b => (if p x b then 1 else 0) +
            (xs.filter (fun a => p a b)).length)).sum := by
            rw [sum_map_add]
      _ = (l2.map (fun b => ((x :: xs).filter (fun a => p a b)).length)).sum := by
            refine congrArg List.sum (List.map_congr_left ?_)
            intro b _
            rw [hsplit b]

theorem sum_map_eq_length {α : Type} (l : List α) (f : α → Nat)
    (h : ∀ x ∈ l, f x = 1) : (l.map f).sum = l.length := by
  induction l with
  | nil => rfl
  | cons x xs ih =>
      rw [List.map_cons, List.sum_cons, h x (List.mem_cons_self _ _),
        ih (fun y hy => h y (List.mem_cons_of_mem _ hy)), List.length_cons]
      omega

theorem segmentValues_length (nd : AhsNoiseData) (grid : List ℚ)
    (t1 t2 v1 v2 : ℚ) :
    (segmentValues nd grid t1 t2 v1 v2).length =
      (grid.filter (fun t => decide (t1 ≤ t) && decide (t ≤ t2))).length := by
  unfold segmentValues
  rw [List.length_map]

/-- The number of corrected amplitude values is the total number of
(segment, in-segment grid point) incidences. -/
theorem rampCorrectedValues_length (nd : AhsNoiseData) (grid : List ℚ)
    (ts : TimeSeriesQ) :
    (rampCorrectedValues nd grid ts).length =
      (grid.map (fun t =>
        ((segmentsOf ts).filter (fun seg => inSegment seg t)).length)).sum := by
  unfold rampCorrectedValues
  rw [List.length_flatMap]
  have h1 : (List.map (List.length ∘ fun seg =>
      segmentValues nd grid seg.1.1 seg.2.1 seg.1.2 seg.2.2)
        (segmentsOf ts)) =
      List.map (fun seg => (grid.filter (inSegment seg)).length)
        (segmentsOf ts) := by
    refine List.map_congr_left ?_
    intro seg _
    show (segmentValues nd grid seg.1.1 seg.2.1 seg.1.2 seg.2.2).length = _
    rw [segmentValues_length]
    rfl
  rw [h1, sum_filter_comm (segmentsOf ts) grid inSegment]

theorem lattice_lengths (nd : AhsNoiseData) (rs : RandomSource)
    (program : AhsProgramQ) :
    (apply_lattice_initialization_errors nd rs program).1.length =
        program.sites.length ∧
      (apply_lattice_initialization_errors nd rs program).2.1.length =
        program.filling.length := by
  unfold apply_lattice_initialization_errors
  constructor
  · show (apply_site_position_error nd rs.sitePosNormal
      program.sites).length = _
    unfold apply_site_position_error
    exact mapEnum_length _ _
  · show (apply_binomial_noise rs.groundPrepDraw
      (apply_binomial_noise rs.fillingDraw program.filling
        nd.filling_error nd.vacancy_error) 0 nd.ground_prep_error).length = _
    unfold apply_binomial_noise
    rw [mapEnum_length, mapEnum_length]

/-- When the corrected-values list comes out with exactly `steps` entries,
the amplitude step succeeds with the explicit resampled series. -/
theorem apply_amplitude_errors_ok (nd : AhsNoiseData) (rs : RandomSource)
    (amplitude : TimeSeriesQ) (steps : Nat) (tA : ℚ)
    (hampLast : amplitude.times.getLast? = some tA)
    (hcorr : (rampCorrectedValues nd (npLinspace 0 tA steps)
      amplitude).length = steps) :
    apply_amplitude_errors nd rs amplitude steps =
      Except.ok
        { times := npLinspace 0 tA steps
          values := mapEnum (fun k v => max 0 (v *
            (1 + nd.rabi_frequency_error_rel * rs.rabiNormal k)))
            (rampCorrectedValues nd (npLinspace 0 tA steps) amplitude) } := by
  unfold apply_amplitude_errors
  rw [hampLast]
  show TimeSeriesFromLists _ _ = _
  unfold TimeSeriesFromLists
  rw [if_pos (by rw [npLinspace_length, mapEnum_length, hcorr])]

/-- When the corrected-values list does not have `steps` entries, the
amplitude step fails with the time-series length-mismatch error. -/
theorem apply_amplitude_errors_mismatch (nd : AhsNoiseData)
    (rs : RandomSource) (amplitude : TimeSeriesQ) (steps : Nat) (tA : ℚ)
    (hampLast : amplitude.times.getLast? = some tA)
    (hne : (rampCorrectedValues nd (npLinspace 0 tA steps)
      amplitude).length ≠ steps) :
    apply_amplitude_errors nd rs amplitude steps =
      Except.error
        "The lengths of the times and values lists are not equal." := by
  unfold apply_amplitude_errors
  rw [hampLast]
  show TimeSeriesFromLists _ _ = _
  unfold TimeSeriesFromLists
  refine if_neg ?_
  rw [npLinspace_length, mapEnum_length]
  exact fun h => hne h.symm

/-- The detuning step always succeeds (for a non-empty detuning series),
with the explicit resampled series and inhomogeneity channel. -/
theorem apply_detuning_errors_ok (nd : AhsNoiseData) (rs : RandomSource)
    (detuning : TimeSeriesQ) (fillings : List Nat) (steps : Nat) (tD : ℚ)
    (hdetLast : detuning.times.getLast? = some tD) :
    apply_detuning_errors nd rs detuning fillings steps =
      Except.ok
        ({ times := npLinspace 0 tD steps
           values := mapEnum
             (fun k v => v + nd.detuning_error * rs.detuningNormal k)
             ((npLinspace 0 tD steps).map
               (fun t => npInterp t detuning.times detuning.values)) },
         { times := npLinspace 0 tD steps
           values := (npLinspace 0 tD steps).map
             (fun _ => nd.detuning_inhomogeneity) },
         mapEnum (fun k _ => rs.patternRand k) fillings) := by
  unfold apply_detuning_errors
  rw [hdetLast]
  show (match TimeSeriesFromLists _ _ with
    | Except.error e => Except.error e
    | Except.ok noisyDetuning => _) = _
  unfold TimeSeriesFromLists
  rw [if_pos (by rw [npLinspace_length, mapEnum_length, List.length_map,
    npLinspace_length]),
    if_pos (by rw [npLinspace_length, List.length_map, npLinspace_length])]

/-- C5 (amended): provided the input driving-field series are non-empty and
every point of the uniform resample grid lies in exactly one linear segment
of the input amplitude series (no interior amplitude time point falls on
the grid), noise injection succeeds and is shape-preserving: the output
register has one site per input site, the output detuning and amplitude
series each have exactly `steps` points, and every output amplitude value
is at least 0.  (At inputs where a grid point lies in two segments the pass
instead fails with the time-series length-mismatch error; see the
counterexample.) -/
theorem C5_noise_injection_shape (nd : AhsNoiseData) (rs : RandomSource)
    (program : AhsProgramQ) (steps : Nat) (tA tD : ℚ)
    (hfill : program.filling.length = program.sites.length)
    (hampLast : program.amplitude.times.getLast? = some tA)
    (hdetLast : program.detuning.times.getLast? = some tD)
    (hone : ∀ t ∈ npLinspace 0 tA steps,
      ((segmentsOf program.amplitude).filter
        (fun seg => inSegment seg t)).length = 1) :
    ∃ out, AhsNoiseRun nd rs program steps = Except.ok out ∧
      out.register.length = program.sites.length ∧
      out.detuning.times.length = steps ∧
      out.detuning.values.length = steps ∧
      out.amplitude.times.length = steps ∧
      out.amplitude.values.length = steps ∧
      ∀ v ∈ out.amplitude.values, 0 ≤ v := by
  -- the corrected amplitude values list has exactly `steps` entries
  have hcorr : (rampCorrectedValues nd (npLinspace 0 tA steps)
      program.amplitude).length = steps := by
    rw [rampCorrectedValues_length, sum_map_eq_length _ _ hone,
      npLinspace_length]
  have hampOk := apply_amplitude_errors_ok nd rs program.amplitude steps tA
    hampLast hcorr
  have hdetOk := apply_detuning_errors_ok nd rs program.detuning
    program.filling steps tD hdetLast
  refine ⟨ahsExpectedOutput nd rs program steps tA tD, ?_, ?_, ?_, ?_, ?_,
    ?_, ?_⟩
  · unfold AhsNoiseRun
    rw [hdetOk, hampOk]
    rfl
  · show (((apply_lattice_initialization_errors nd rs program).1.zip
      (apply_lattice_initialization_errors nd rs program).2.1).map
        (fun p => (p.1, decide (p.2 = 1)))).length = program.sites.length
    rw [List.length_map, List.length_zip, (lattice_lengths nd rs program).1,
      (lattice_lengths nd rs program).2, hfill, Nat.min_self]
  · show (npLinspace 0 tD steps).length = steps
    exact npLinspace_length 0 tD steps
  · show (mapEnum (fun k v => v + nd.detuning_error * rs.detuningNormal k)
      ((npLinspace 0 tD steps).map
        (fun t => npInterp t program.detuning.times
          program.detuning.values))).length = steps
    rw [mapEnum_length, List.length_map, npLinspace_length]
  · show (npLinspace 0 tA steps).length = steps
    exact npLinspace_length 0 tA steps
  · show (mapEnum (fun k v => max 0 (v *
      (1 + nd.rabi_frequency_error_rel * rs.rabiNormal k)))
      (rampCorrectedValues nd (npLinspace 0 tA steps)
        program.amplitude)).length = steps
    rw [mapEnum_length, hcorr]
  · intro v hv
    have hv' : v ∈ (rampCorrectedValues nd (npLinspace 0 tA steps)
        program.amplitude).enum.map (fun p => max 0 (p.2 * (1 +
          nd.rabi_frequency_error_rel * rs.rabiNormal p.1))) := hv
    obtain ⟨p, -, hp⟩ := List.mem_map.mp hv'
    rw [← hp]
    exact le_max_left 0 _

theorem npLinspace_two : npLinspace 0 2 2 = [0, 2] := by
  unfold npLinspace
  rw [if_neg (by norm_num), show List.range 2 = [0, 1] from rfl]
  norm_num

theorem npLinspace_three : npLinspace 0 2 3 = [0, 1, 2] := by
  unfold npLinspace
  rw [if_neg (by norm_num), show List.range 3 = [0, 1, 2] from rfl]
  norm_num

/-- Witness for C5's amended theorem at a two-point amplitude series
resampled onto a two-point grid: the run succeeds and is
shape-preserving. -/
theorem C5_noise_injection_shape_witness :
    ∃ out, AhsNoiseRun ndZero rsZero programTwoPoint 2 = Except.ok out ∧
      out.register.length = programTwoPoint.sites.length ∧
      out.detuning.times.length = 2 ∧
      out.detuning.values.length = 2 ∧
      out.amplitude.times.length = 2 ∧
      out.amplitude.values.length = 2 ∧
      ∀ v ∈ out.amplitude.values, 0 ≤ v := by
  refine C5_noise_injection_shape ndZero rsZero programTwoPoint 2 2 2 rfl
    rfl rfl ?_
  intro t ht
  rw [npLinspace_two] at ht
  have h02 : (0 : ℚ) ≤ t ∧ t ≤ 2 := by
    rcases List.mem_cons.mp ht with rfl | ht'
    · norm_num
    · rcases List.mem_singleton.mp ht' with rfl
      norm_num
  have hseg : segmentsOf programTwoPoint.amplitude = [((0, 0), (2, 0))] :=
    rfl
  rw [hseg]
  simp [inSegment, h02.1, h02.2]

theorem rampCorrected_breakpoint_length :
    (rampCorrectedValues ndZero (npLinspace 0 2 3)
      programBreakpoint.amplitude).length = 4 := by
  rw [rampCorrectedValues_length, npLinspace_three]
  have hseg : segmentsOf programBreakpoint.amplitude =
      [((0, 0), (1, 0)), ((1, 0), (2, 0))] := rfl
  rw [hseg]
  norm_num [inSegment, List.filter]

/-- C5 counterexample: at a program whose amplitude series has an interior
time point (1) lying on the uniform 3-point resample grid of `[0, 2]`, the
per-segment loop emits that grid point twice (both bounding segments
satisfy `t1 ≤ t ≤ t2`), so the corrected values list has 4 entries for the
requested 3, and the pass raises the time-series length-mismatch error
instead of returning a 3-point amplitude series; the claim's unconditional
shape-preservation is false as stated. -/
theorem C5_noise_injection_shape_counterexample :
    (rampCorrectedValues ndZero (npLinspace 0 2 3)
      programBreakpoint.amplitude).length = 4 ∧
    AhsNoiseRun ndZero rsZero programBreakpoint 3 =
      Except.error
        "The lengths of the times and values lists are not equal." := by
  refine ⟨rampCorrected_breakpoint_length, ?_⟩
  unfold AhsNoiseRun
  rw [apply_detuning_errors_ok ndZero rsZero programBreakpoint.detuning
    programBreakpoint.filling 3 2 rfl]
  rw [apply_amplitude_errors_mismatch ndZero rsZero
    programBreakpoint.amplitude 3 2 rfl
    (by rw [rampCorrected_breakpoint_length]; norm_num)]

end BraketEmu
